import Mathlib

/-!
# Shallow embedding of the libntfs block cache (`source/cache2.c`)

This file embeds the NTFS block cache of `source/cache2.c` in Lean and proves
properties of its replacement policy, writeback engine and access layer.

Modelling conventions:

* `sec_t` and `unsigned int` are 32-bit unsigned on the target platform
  (PowerPC, libogc); their arithmetic is modelled on `Nat` with explicit
  wrap-around (`% 2^32`) where the C computation can wrap.  The sentinel
  `CACHE_FREE = (sec_t)-1` is the concrete value `2^32 - 1`.
* The dirty bitmap is `uint64_t`; shifts on it are modelled value-wise
  modulo `2^64` (a shift of 64, which the target's software 64-bit shift
  `__ashldi3` evaluates to 0, is `(1 <<< 64) % 2^64 = 0`).
* The block device (`DISC_INTERFACE`) is an external capability; it is
  modelled as an oracle telling for each `(start, count)` transfer whether
  it succeeds, plus a byte oracle for data read into the cache.  Each
  operation additionally returns the list of device calls it issued, in
  order, so that theorems can speak about the I/O a call performs.
* Slot buffers are byte lists; `memcpy`/`memset` are spliced list updates.
* The process-wide access counter (a C `static u32`) is threaded through
  the cache state; `accessTime` increments it modulo `2^32`.
* The `while` loops of `_NTFS_cache_readSectors`/`_NTFS_cache_writeSectors`
  can fail to make progress in C (for accesses past the partition end); the
  embedding runs them on explicit fuel and returns `none` exactly when the
  fuel is exhausted with sectors still outstanding, which corresponds to
  the C loop not terminating.
-/

set_option linter.unusedVariables false

/-- `(sec_t)-1`, the FREE sentinel for a slot's `sector` field. -/
def CACHE_FREE : Nat := 2^32 - 1

/-- 32-bit unsigned subtraction `a - b` as computed by the C code. -/
def usub32 (a b : Nat) : Nat := (a + (2^32 - b % 2^32)) % 2^32

/-- Fuelled helper for `ffsll`: position of the least significant set bit. -/
def ffsAux (fuel n : Nat) : Nat :=
  match fuel with
  | 0 => 0
  | fuel + 1 => if n = 0 then 0 else if n % 2 = 1 then 1 else ffsAux fuel (n / 2) + 1

/-- C `ffsll` on a `uint64_t`: 0 on 0, else index of the lowest set bit plus 1. -/
def ffsll (n : Nat) : Nat := ffsAux 64 n

/-- Fuelled helper for `flsll`: bit length. -/
def flsAux (fuel n : Nat) : Nat :=
  match fuel with
  | 0 => 0
  | fuel + 1 => if n = 0 then 0 else flsAux fuel (n / 2) + 1

/-- C `flsll` on a `uint64_t`: 0 on 0, else index of the highest set bit plus 1. -/
def flsll (n : Nat) : Nat := flsAux 64 n

/-- `memcpy` into a byte list: overwrite `data.length` bytes at `off`. -/
def writeBytes (buf : List Nat) (off : Nat) (data : List Nat) : List Nat :=
  buf.take off ++ data ++ buf.drop (off + data.length)

/-- A device call issued by the cache: `read start count` / `write start count`. -/
inductive IOEvent where
  | read : Nat → Nat → IOEvent
  | write : Nat → Nat → IOEvent
deriving DecidableEq, Repr

/-- Is an event a device read? -/
def IOEvent.isRead : IOEvent → Bool
  | .read _ _ => true
  | .write _ _ => false

/-- `NTFS_CACHE_ENTRY`: one page slot.  `sector = CACHE_FREE` means FREE. -/
structure NTFS_CACHE_ENTRY where
  sector : Nat
  count : Nat
  last_access : Nat
  dirty : Nat
  buffer : List Nat
deriving DecidableEq, Repr

instance : Inhabited NTFS_CACHE_ENTRY := ⟨⟨0, 0, 0, 0, []⟩⟩

/-- `NTFS_CACHE` together with the process-wide access counter.
`numberOfPages` is `cacheEntries.length`. -/
structure NTFS_CACHE where
  endOfPartition : Nat
  sectorsPerPage : Nat
  bytesPerSector : Nat
  cacheEntries : List NTFS_CACHE_ENTRY
  accessCounter : Nat
deriving DecidableEq, Repr

instance : Inhabited NTFS_CACHE := ⟨⟨0, 0, 0, [], 0⟩⟩

/-- The block-device capability: success oracles for reads/writes plus a
byte oracle giving the data a successful read deposits (byte at absolute
byte address). -/
structure DISC_INTERFACE where
  readOk : Nat → Nat → Bool
  writeOk : Nat → Nat → Bool
  readData : Nat → Nat

/-- Hit test of the scan loop in `_NTFS_cache_getPage`:
`sector >= e.sector && sector < e.sector + e.count` with 32-bit addition.
A FREE slot never hits a target `sector < 2^32 - 1`. -/
def hitTest (e : NTFS_CACHE_ENTRY) (sector : Nat) : Bool :=
  decide (e.sector ≤ sector) && decide (sector < (e.sector + e.count) % 2^32)

/-- The scan loop of `_NTFS_cache_getPage`: returns the first hit index, or
on a miss the `foundFree` flag and the victim index `oldUsed`. -/
def cacheScan (sector : Nat) : List NTFS_CACHE_ENTRY → Nat → Bool → Nat → Nat →
    Option Nat × Bool × Nat
  | [], _, foundFree, oldUsed, _ => (none, foundFree, oldUsed)
  | e :: rest, i, foundFree, oldUsed, oldAccess =>
    if hitTest e sector then (some i, foundFree, oldUsed)
    else if !foundFree && (decide (e.sector = CACHE_FREE) || decide (e.last_access < oldAccess)) then
      cacheScan sector rest (i + 1) (decide (e.sector = CACHE_FREE)) i e.last_access
    else
      cacheScan sector rest (i + 1) foundFree oldUsed oldAccess

/-- The scan of `_NTFS_cache_getPage` on a cache: starts with `foundFree =
false`, `oldUsed = 0`, `oldAccess = UINT_MAX`. -/
def getPage_scan (c : NTFS_CACHE) (sector : Nat) : Option Nat × Bool × Nat :=
  cacheScan sector c.cacheEntries 0 false 0 (2^32 - 1)

/-- `cacheEntries[i].last_access = accessTime()`: bump the counter (mod `2^32`)
and stamp slot `i`. -/
def touchEntry (c : NTFS_CACHE) (i : Nat) : NTFS_CACHE :=
  let ctr := (c.accessCounter + 1) % 2^32
  let e := c.cacheEntries.getD i default
  { c with accessCounter := ctr,
           cacheEntries := c.cacheEntries.set i { e with last_access := ctr } }

/-- First sector of the contiguous writeback span of a dirty slot:
`entry->sector + (ffsll(dirty) - 1)`. -/
def wbStart (e : NTFS_CACHE_ENTRY) : Nat := e.sector + (ffsll e.dirty - 1)

/-- Length of the contiguous writeback span: `flsll(dirty) - (ffsll(dirty)-1)`. -/
def wbLen (e : NTFS_CACHE_ENTRY) : Nat := flsll e.dirty - (ffsll e.dirty - 1)

/-- The writeback device call of a dirty slot. -/
def wbEvent (e : NTFS_CACHE_ENTRY) : IOEvent := IOEvent.write (wbStart e) (wbLen e)

/-- `(sector / sectorsPerPage) * sectorsPerPage`: the page base of a sector. -/
def pageBase (S sector0 : Nat) : Nat := sector0 / S * S

/-- The rebased slot's sector count (lines 154-156): `endOfPartition - base`
in 32-bit arithmetic, clamped to `sectorsPerPage`. -/
def pageCount (c : NTFS_CACHE) (sector0 : Nat) : Nat :=
  let count1 := usub32 c.endOfPartition (pageBase c.sectorsPerPage sector0)
  if count1 > c.sectorsPerPage then c.sectorsPerPage else count1

/-- The clamp of `numSectors` to the remainder of the page (line 157). -/
def clampNumSectors (c : NTFS_CACHE) (sector0 numSectors0 : Nat) : Nat :=
  let sector := sector0 - pageBase c.sectorsPerPage sector0
  let rem := usub32 (pageCount c sector0) sector
  if numSectors0 > rem then rem else numSectors0

/-- The write-allocate window selection of `_NTFS_cache_getPage` (lines
159-172): given the in-page offset `sector`, the clamped `numSectors` and
the page's sector count `spp`, return `none` when the load is elided
entirely, else `some (sec, secs_to_read)`. -/
def populateWindow (write : Bool) (sector numSectors spp : Nat) : Option (Nat × Nat) :=
  if write && decide (sector = 0) && decide (numSectors = spp) then none
  else if write && decide (sector = 0) then some (numSectors, spp - numSectors)
  else if write && decide (sector + numSectors = spp) then some (0, spp - numSectors)
  else some (0, spp)

/-- Rebase and populate phase of `_NTFS_cache_getPage` (lines 152-183):
slot `oldUsed` is rebased onto the page containing `sector0` and loaded.
Returns the slot index on success, `none` on a failed populate read. -/
def getPage_fill (disc : DISC_INTERFACE) (c : NTFS_CACHE) (oldUsed sector0 numSectors0 : Nat)
    (write : Bool) (tr : List IOEvent) : Option Nat × NTFS_CACHE × List IOEvent :=
  let e := c.cacheEntries.getD oldUsed default
  let base := pageBase c.sectorsPerPage sector0
  let sector := sector0 - base
  let count := pageCount c sector0
  let numSectors := clampNumSectors c sector0 numSectors0
  let e1 := { e with sector := base, count := count }
  match populateWindow write sector numSectors count with
  | none =>
      let c1 := { c with cacheEntries := c.cacheEntries.set oldUsed e1 }
      (some oldUsed, touchEntry c1 oldUsed, tr)
  | some (sec, str) =>
      if disc.readOk (base + sec) str then
        let data := (List.range (str * c.bytesPerSector)).map
          (fun k => disc.readData ((base + sec) * c.bytesPerSector + k))
        let e2 := { e1 with buffer := writeBytes e1.buffer (sec * c.bytesPerSector) data }
        let c1 := { c with cacheEntries := c.cacheEntries.set oldUsed e2 }
        (some oldUsed, touchEntry c1 oldUsed, tr ++ [IOEvent.read (base + sec) str])
      else
        let e3 := { e1 with sector := CACHE_FREE, count := 0, last_access := 0, dirty := 0 }
        let c1 := { c with cacheEntries := c.cacheEntries.set oldUsed e3 }
        (none, c1, tr ++ [IOEvent.read (base + sec) str])

/-- `cacheEntries[oldUsed].dirty = 0` after a successful eviction writeback. -/
def clearDirty (c : NTFS_CACHE) (i : Nat) : NTFS_CACHE :=
  { c with cacheEntries :=
      c.cacheEntries.set i { c.cacheEntries.getD i default with dirty := 0 } }

/-- `_NTFS_cache_getPage`: hit scan, victim selection, eviction writeback,
rebase and populate.  Returns `(slot index or none, new state, device calls)`. -/
def _NTFS_cache_getPage (disc : DISC_INTERFACE) (c : NTFS_CACHE)
    (sector numSectors : Nat) (write : Bool) : Option Nat × NTFS_CACHE × List IOEvent :=
  match getPage_scan c sector with
  | (some i, _, _) => (some i, touchEntry c i, [])
  | (none, foundFree, oldUsed) =>
    let e := c.cacheEntries.getD oldUsed default
    if !foundFree && decide (e.dirty ≠ 0) then
      if disc.writeOk (wbStart e) (wbLen e) then
        getPage_fill disc (clearDirty c oldUsed) oldUsed sector numSectors write [wbEvent e]
      else (none, c, [wbEvent e])
    else
      getPage_fill disc c oldUsed sector numSectors write []

/-- Loop of `_NTFS_cache_findPage`: lowest-based non-FREE slot intersecting
`[sector, sector + count)`. -/
def findPage_go (sector count : Nat) : List NTFS_CACHE_ENTRY → Nat → Option Nat → Nat → Option Nat
  | [], _, best, _ => best
  | e :: rest, i, best, lowest =>
    if e.sector ≠ CACHE_FREE then
      let intersect :=
        if sector > e.sector then decide (sector - e.sector < e.count)
        else decide (e.sector - sector < count)
      if intersect && decide (e.sector < lowest) then
        findPage_go sector count rest (i + 1) (some i) e.sector
      else
        findPage_go sector count rest (i + 1) best lowest
    else
      findPage_go sector count rest (i + 1) best lowest

/-- `_NTFS_cache_findPage`: index of the non-FREE slot with the smallest base
sector intersecting `[sector, sector + count)`, or `none`. -/
def _NTFS_cache_findPage (c : NTFS_CACHE) (sector count : Nat) : Option Nat :=
  findPage_go sector count c.cacheEntries 0 none CACHE_FREE

/-- The direct-transfer amount of the bulk loops (lines 221-229 / 353-361):
nonzero only for a 32-byte-aligned pointer and page-aligned sector; whole
pages up to the first intersecting cached slot. -/
def bypassAmount (c : NTFS_CACHE) (sector numSectors ptr : Nat) : Nat :=
  if ptr % 32 == 0 && sector % c.sectorsPerPage == 0 then
    match _NTFS_cache_findPage c sector numSectors with
    | none => numSectors / c.sectorsPerPage * c.sectorsPerPage
    | some j =>
      let e := c.cacheEntries.getD j default
      if e.sector > sector then e.sector - sector else 0
  else 0

/-- One iteration structure of the `_NTFS_cache_readSectors` while loop, on
fuel.  `dest` is the destination pointer's address (only its value mod 32 and
its advancement matter; the bytes read out of the cache are not modelled). -/
def readLoop (disc : DISC_INTERFACE) : Nat → NTFS_CACHE → Nat → Nat → Nat → List IOEvent →
    Option (Bool × NTFS_CACHE × List IOEvent)
  | 0, c, _, numSectors, _, tr =>
      if numSectors = 0 then some (true, c, tr) else none
  | fuel + 1, c, sector, numSectors, dest, tr =>
    if numSectors = 0 then some (true, c, tr)
    else
      let bypass := bypassAmount c sector numSectors dest
      if bypass > 0 then
        if disc.readOk sector bypass then
          readLoop disc fuel c (sector + bypass) (numSectors - bypass)
            (dest + bypass * c.bytesPerSector) (tr ++ [IOEvent.read sector bypass])
        else some (false, c, tr ++ [IOEvent.read sector bypass])
      else
        match _NTFS_cache_getPage disc c sector numSectors false with
        | (none, c', tr') => some (false, c', tr ++ tr')
        | (some i, c', tr') =>
          let e := c'.cacheEntries.getD i default
          let sec := sector - e.sector
          let str0 := usub32 e.count sec
          let str := if str0 > numSectors then numSectors else str0
          readLoop disc fuel c' (sector + str) (numSectors - str)
            (dest + str * c'.bytesPerSector) (tr ++ tr')

/-- `_NTFS_cache_readSectors`.  `none` marks the C loop failing to make
progress (possible only for accesses past the partition end). -/
def _NTFS_cache_readSectors (disc : DISC_INTERFACE) (c : NTFS_CACHE)
    (sector numSectors dest : Nat) : Option (Bool × NTFS_CACHE × List IOEvent) :=
  readLoop disc numSectors c sector numSectors dest []

/-- The dirty-bitmap mask `((1ULL << w) - 1) << local` of
`_NTFS_cache_writeSectors`, with `uint64_t` wrap-around semantics. -/
def dirtyMask (w lo : Nat) : Nat :=
  ((((1 <<< w) % 2^64 + (2^64 - 1)) % 2^64) <<< lo) % 2^64

/-- Loop of `_NTFS_cache_writeSectors` on fuel.  `src` is the source
pointer's address, `srcData` the byte at each address. -/
def writeLoop (disc : DISC_INTERFACE) (srcData : Nat → Nat) :
    Nat → NTFS_CACHE → Nat → Nat → Nat → List IOEvent →
    Option (Bool × NTFS_CACHE × List IOEvent)
  | 0, c, _, numSectors, _, tr =>
      if numSectors = 0 then some (true, c, tr) else none
  | fuel + 1, c, sector, numSectors, src, tr =>
    if numSectors = 0 then some (true, c, tr)
    else
      let bypass := bypassAmount c sector numSectors src
      if bypass > 0 then
        if disc.writeOk sector bypass then
          writeLoop disc srcData fuel c (sector + bypass) (numSectors - bypass)
            (src + bypass * c.bytesPerSector) (tr ++ [IOEvent.write sector bypass])
        else some (false, c, tr ++ [IOEvent.write sector bypass])
      else
        match _NTFS_cache_getPage disc c sector numSectors true with
        | (none, c', tr') => some (false, c', tr ++ tr')
        | (some i, c', tr') =>
          let e := c'.cacheEntries.getD i default
          let sec := sector - e.sector
          let stw0 := usub32 e.count sec
          let stw := if stw0 > numSectors then numSectors else stw0
          let data := (List.range (stw * c'.bytesPerSector)).map (fun k => srcData (src + k))
          let e2 := { e with buffer := writeBytes e.buffer (sec * c'.bytesPerSector) data,
                             dirty := e.dirty ||| dirtyMask stw sec }
          let c2 := { c' with cacheEntries := c'.cacheEntries.set i e2 }
          writeLoop disc srcData fuel c2 (sector + stw) (numSectors - stw)
            (src + stw * c'.bytesPerSector) (tr ++ tr')

/-- `_NTFS_cache_writeSectors`. -/
def _NTFS_cache_writeSectors (disc : DISC_INTERFACE) (c : NTFS_CACHE)
    (sector numSectors src : Nat) (srcData : Nat → Nat) :
    Option (Bool × NTFS_CACHE × List IOEvent) :=
  writeLoop disc srcData numSectors c sector numSectors src []

/-- `_NTFS_cache_readPartialSector`: pull the page holding `sector` with
`write = false` and copy `size` bytes out at in-sector offset `offset`
(the copied-out bytes are not modelled; only success and state matter). -/
def _NTFS_cache_readPartialSector (disc : DISC_INTERFACE) (c : NTFS_CACHE)
    (sector offset size : Nat) : Bool × NTFS_CACHE × List IOEvent :=
  if offset + size > c.bytesPerSector then (false, c, [])
  else
    match _NTFS_cache_getPage disc c sector 1 false with
    | (none, c', tr) => (false, c', tr)
    | (some _, c', tr) => (true, c', tr)

/-- `_NTFS_cache_readLittleEndianValue`: performs the byte read first, then
rejects widths outside {1, 2, 4} (the assembled value is not modelled). -/
def _NTFS_cache_readLittleEndianValue (disc : DISC_INTERFACE) (c : NTFS_CACHE)
    (sector offset numBytes : Nat) : Bool × NTFS_CACHE × List IOEvent :=
  match _NTFS_cache_readPartialSector disc c sector offset numBytes with
  | (false, c', tr) => (false, c', tr)
  | (true, c', tr) =>
    ((numBytes == 1 || numBytes == 2 || numBytes == 4), c', tr)

/-- `_NTFS_cache_writePartialSector`: pull the page with `write = false`,
copy `size` bytes in at offset, set the slot's dirty bit for that sector. -/
def _NTFS_cache_writePartialSector (disc : DISC_INTERFACE) (c : NTFS_CACHE)
    (sector offset size : Nat) (srcData : Nat → Nat) : Bool × NTFS_CACHE × List IOEvent :=
  if offset + size > c.bytesPerSector then (false, c, [])
  else
    match _NTFS_cache_getPage disc c sector 1 false with
    | (none, c', tr) => (false, c', tr)
    | (some i, c', tr) =>
      let e := c'.cacheEntries.getD i default
      let sec := sector - e.sector
      let data := (List.range size).map srcData
      let e2 := { e with buffer := writeBytes e.buffer (sec * c'.bytesPerSector + offset) data,
                         dirty := e.dirty ||| (1 <<< sec) % 2^64 }
      (true, { c' with cacheEntries := c'.cacheEntries.set i e2 }, tr)

/-- `_NTFS_cache_eraseWritePartialSector`: pull the page with `write = true`,
zero the whole sector, copy `size` bytes in, set the dirty bit. -/
def _NTFS_cache_eraseWritePartialSector (disc : DISC_INTERFACE) (c : NTFS_CACHE)
    (sector offset size : Nat) (srcData : Nat → Nat) : Bool × NTFS_CACHE × List IOEvent :=
  if offset + size > c.bytesPerSector then (false, c, [])
  else
    match _NTFS_cache_getPage disc c sector 1 true with
    | (none, c', tr) => (false, c', tr)
    | (some i, c', tr) =>
      let e := c'.cacheEntries.getD i default
      let sec := sector - e.sector
      let zeroed := writeBytes e.buffer (sec * c'.bytesPerSector)
        (List.replicate c'.bytesPerSector 0)
      let data := (List.range size).map srcData
      let e2 := { e with buffer := writeBytes zeroed (sec * c'.bytesPerSector + offset) data,
                         dirty := e.dirty ||| (1 <<< sec) % 2^64 }
      (true, { c' with cacheEntries := c'.cacheEntries.set i e2 }, tr)

/-- Byte `k` of the little-endian encoding of a 32-bit value. -/
def leByte (value k : Nat) : Nat := value / 256 ^ k % 256

/-- `_NTFS_cache_writeLittleEndianValue`: rejects widths outside {1, 2, 4}
before touching the cache, else writes the little-endian bytes. -/
def _NTFS_cache_writeLittleEndianValue (disc : DISC_INTERFACE) (c : NTFS_CACHE)
    (value sector offset size : Nat) : Bool × NTFS_CACHE × List IOEvent :=
  if size == 1 || size == 2 || size == 4 then
    _NTFS_cache_writePartialSector disc c sector offset size (leByte value)
  else (false, c, [])

/-- Loop of `_NTFS_cache_flush`: write back each dirty slot's contiguous span
in index order, stopping at the first failed device write. -/
def flushLoop (disc : DISC_INTERFACE) : List NTFS_CACHE_ENTRY →
    Bool × List NTFS_CACHE_ENTRY × List IOEvent
  | [] => (true, [], [])
  | e :: rest =>
    if e.dirty ≠ 0 then
      if disc.writeOk (wbStart e) (wbLen e) then
        let (b, rest', tr) := flushLoop disc rest
        (b, { e with dirty := 0 } :: rest', wbEvent e :: tr)
      else (false, e :: rest, [wbEvent e])
    else
      let (b, rest', tr) := flushLoop disc rest
      (b, e :: rest', tr)

/-- `_NTFS_cache_flush`. -/
def _NTFS_cache_flush (disc : DISC_INTERFACE) (c : NTFS_CACHE) :
    Bool × NTFS_CACHE × List IOEvent :=
  let (b, es, tr) := flushLoop disc c.cacheEntries
  (b, { c with cacheEntries := es }, tr)

/-- `_NTFS_cache_invalidate`: flush (result ignored), then mark every slot
FREE with count, access and dirty zero. -/
def _NTFS_cache_invalidate (disc : DISC_INTERFACE) (c : NTFS_CACHE) :
    NTFS_CACHE × List IOEvent :=
  let (_, c1, tr) := _NTFS_cache_flush disc c
  let es := c1.cacheEntries.map
    (fun e => { e with sector := CACHE_FREE, count := 0, last_access := 0, dirty := 0 })
  ({ c1 with cacheEntries := es }, tr)

/-- `_NTFS_cache_constructor`.  The two checked heap allocations are oracle
booleans (`alloc1` for the cache record, `alloc2` for the entry table); the
per-slot aligned buffer allocations are unchecked in C and modelled as
always succeeding, with unspecified contents modelled as zero bytes.  `ctr`
is the current value of the process-wide access counter (a C `static`
initialised to zero), which the constructor does not touch. -/
def _NTFS_cache_constructor (numberOfPages sectorsPerPage : Nat)
    (endOfPartition bytesPerSector : Nat) (alloc1 alloc2 : Bool) (ctr : Nat) :
    Option NTFS_CACHE :=
  if numberOfPages = 0 ∨ sectorsPerPage = 0 then none
  else
    let pages := if numberOfPages < 4 then 4 else numberOfPages
    let spp := if sectorsPerPage < 32 then 32
               else if sectorsPerPage > 64 then 64 else sectorsPerPage
    if !alloc1 then none
    else if !alloc2 then none
    else some
      { endOfPartition := endOfPartition
        sectorsPerPage := spp
        bytesPerSector := bytesPerSector
        cacheEntries := List.replicate pages
          { sector := CACHE_FREE, count := 0, last_access := 0, dirty := 0,
            buffer := List.replicate (spp * bytesPerSector) 0 }
        accessCounter := ctr }

/-- One access-layer operation, with its arguments.  Pointer arguments are
addresses (`dest`, `src`); written data comes from a byte oracle. -/
inductive CacheOp where
  | readS (sector numSectors dest : Nat)
  | writeS (sector numSectors src : Nat) (srcData : Nat → Nat)
  | readP (sector offset size : Nat)
  | writeP (sector offset size : Nat) (srcData : Nat → Nat)
  | eraseWriteP (sector offset size : Nat) (srcData : Nat → Nat)
  | readLE (sector offset numBytes : Nat)
  | writeLE (value sector offset size : Nat)
  | flushOp
  | invalidateOp

/-- Run one access-layer operation, keeping the resulting cache state.  A
bulk transfer whose C loop does not terminate (`none`) contributes no final
state; the prior state is kept so that sequences remain total. -/
def runOp (disc : DISC_INTERFACE) (c : NTFS_CACHE) : CacheOp → NTFS_CACHE
  | .readS s n d =>
    match _NTFS_cache_readSectors disc c s n d with
    | some (_, c', _) => c'
    | none => c
  | .writeS s n src sd =>
    match _NTFS_cache_writeSectors disc c s n src sd with
    | some (_, c', _) => c'
    | none => c
  | .readP s o z => (_NTFS_cache_readPartialSector disc c s o z).2.1
  | .writeP s o z sd => (_NTFS_cache_writePartialSector disc c s o z sd).2.1
  | .eraseWriteP s o z sd => (_NTFS_cache_eraseWritePartialSector disc c s o z sd).2.1
  | .readLE s o n => (_NTFS_cache_readLittleEndianValue disc c s o n).2.1
  | .writeLE v s o z => (_NTFS_cache_writeLittleEndianValue disc c v s o z).2.1
  | .flushOp => (_NTFS_cache_flush disc c).2.1
  | .invalidateOp => (_NTFS_cache_invalidate disc c).1

/-- Run a sequence of access-layer operations. -/
def runOps (disc : DISC_INTERFACE) (c : NTFS_CACHE) (ops : List CacheOp) : NTFS_CACHE :=
  ops.foldl (runOp disc) c

/-- Does the operation address only sectors inside the partition `[0, E)`? -/
def CacheOp.inPartition (E : Nat) : CacheOp → Bool
  | .readS s n _ => decide (s + n ≤ E)
  | .writeS s n _ _ => decide (s + n ≤ E)
  | .readP s _ _ => decide (s < E)
  | .writeP s _ _ _ => decide (s < E)
  | .eraseWriteP s _ _ _ => decide (s < E)
  | .readLE s _ _ => decide (s < E)
  | .writeLE _ s _ _ => decide (s < E)
  | .flushOp => true
  | .invalidateOp => true

/-- The structural invariant of the cache preserved by in-partition
operations: the page size is positive, `endOfPartition` fits in `sec_t`,
every non-FREE slot is page-aligned, starts inside the partition and covers
exactly its page clipped to the partition, and distinct non-FREE slots sit
on distinct pages. -/
def CacheInv (c : NTFS_CACHE) : Prop :=
  0 < c.sectorsPerPage ∧ c.endOfPartition < 2^32 ∧
  (∀ i, i < c.cacheEntries.length →
    (c.cacheEntries.getD i default).sector ≠ CACHE_FREE →
    c.sectorsPerPage ∣ (c.cacheEntries.getD i default).sector ∧
    (c.cacheEntries.getD i default).sector < c.endOfPartition ∧
    (c.cacheEntries.getD i default).count =
      min c.sectorsPerPage (c.endOfPartition - (c.cacheEntries.getD i default).sector)) ∧
  (∀ i j, i < c.cacheEntries.length → j < c.cacheEntries.length → i ≠ j →
    (c.cacheEntries.getD i default).sector ≠ CACHE_FREE →
    (c.cacheEntries.getD j default).sector ≠ CACHE_FREE →
    (c.cacheEntries.getD i default).sector ≠ (c.cacheEntries.getD j default).sector)

/-! ## Helper lemmas -/

theorem getD_set_self {l : List NTFS_CACHE_ENTRY} {i : Nat} {x d : NTFS_CACHE_ENTRY}
    (h : i < l.length) : (l.set i x).getD i d = x := by
  simp [List.getD_eq_getElem?_getD, List.getElem?_set_self (l := l) (i := i) h]

theorem getD_set_ne {l : List NTFS_CACHE_ENTRY} {i j : Nat} {x d : NTFS_CACHE_ENTRY}
    (h : i ≠ j) : (l.set i x).getD j d = l.getD j d := by
  simp [List.getD_eq_getElem?_getD, List.getElem?_set_ne h]

theorem usub32_eq_sub {a b : Nat} (hba : b ≤ a) (ha : a < 2^32) :
    usub32 a b = a - b := by
  unfold usub32
  have hb : b % 2^32 = b := Nat.mod_eq_of_lt (lt_of_le_of_lt hba ha)
  rw [hb]
  omega

/-- A fresh-state form of the loops: zero outstanding sectors succeed at any
fuel without touching anything. -/
theorem readLoop_zero (disc : DISC_INTERFACE) (fuel : Nat) (c : NTFS_CACHE)
    (sector dest : Nat) (tr : List IOEvent) :
    readLoop disc fuel c sector 0 dest tr = some (true, c, tr) := by
  cases fuel <;> simp [readLoop]

theorem writeLoop_zero (disc : DISC_INTERFACE) (sd : Nat → Nat) (fuel : Nat) (c : NTFS_CACHE)
    (sector src : Nat) (tr : List IOEvent) :
    writeLoop disc sd fuel c sector 0 src tr = some (true, c, tr) := by
  cases fuel <;> simp [writeLoop]

/-! ## C10 -/

/-- C10: for every cache state, `_NTFS_cache_readSectors` and
`_NTFS_cache_writeSectors` with `numSectors = 0` return true, issue no
device I/O and leave the whole cache state (slots, dirty bitmaps, access
counter) unchanged. -/
theorem readWriteSectors_zero (disc : DISC_INTERFACE) (c : NTFS_CACHE)
    (sector dest src : Nat) (srcData : Nat → Nat) :
    _NTFS_cache_readSectors disc c sector 0 dest = some (true, c, []) ∧
    _NTFS_cache_writeSectors disc c sector 0 src srcData = some (true, c, []) :=
  ⟨rfl, rfl⟩

/-! ## C9 -/

/-- C9: the constructor returns `none` exactly when `numberOfPages = 0` or
`sectorsPerPage = 0` (checked before clamping) or one of the two checked
allocations fails; on success (with the process-wide access counter at its
initial value 0) the cache has `max numberOfPages 4` pages, `sectorsPerPage`
clamped into `[32, 64]`, every slot FREE with `count`, `last_access` and
`dirty` zero, and the access counter zero. -/
theorem constructor_spec :
    (∀ pc spp E B a1 a2 ctr,
      (_NTFS_cache_constructor pc spp E B a1 a2 ctr = none ↔
        pc = 0 ∨ spp = 0 ∨ a1 = false ∨ a2 = false)) ∧
    (∀ pc spp E B a1 a2 c, _NTFS_cache_constructor pc spp E B a1 a2 0 = some c →
      c.cacheEntries.length = max pc 4 ∧
      c.sectorsPerPage = min (max spp 32) 64 ∧
      32 ≤ c.sectorsPerPage ∧ c.sectorsPerPage ≤ 64 ∧
      c.accessCounter = 0 ∧
      (∀ i, i < c.cacheEntries.length →
        (c.cacheEntries.getD i default).sector = CACHE_FREE ∧
        (c.cacheEntries.getD i default).count = 0 ∧
        (c.cacheEntries.getD i default).last_access = 0 ∧
        (c.cacheEntries.getD i default).dirty = 0)) := by
  constructor
  · intro pc spp E B a1 a2 ctr
    unfold _NTFS_cache_constructor
    by_cases h : pc = 0 ∨ spp = 0
    · simp only [h, if_true]
      simp
      tauto
    · cases a1 <;> cases a2 <;> simp [h]
  · intro pc spp E B a1 a2 c hc
    unfold _NTFS_cache_constructor at hc
    by_cases h : pc = 0 ∨ spp = 0
    · simp [h] at hc
    · cases a1 <;> cases a2 <;> simp [h] at hc
      subst hc
      refine ⟨?_, ?_, ?_, ?_, rfl, ?_⟩
      · simp only [List.length_replicate]
        split <;> omega
      · simp only []
        split <;> (try split) <;> omega
      · simp only []
        split <;> (try split) <;> omega
      · simp only []
        split <;> (try split) <;> omega
      · intro i hi
        simp only [List.length_replicate] at hi
        simp [List.getD_eq_getElem?_getD, List.getElem?_replicate, hi]

/-- Witness for C9 at `numberOfPages = 2`, `sectorsPerPage = 16`. -/
theorem constructor_spec_witness :
    (_NTFS_cache_constructor 2 16 40 1 true true 5 = none ↔
      (2 : Nat) = 0 ∨ (16 : Nat) = 0 ∨ true = false ∨ true = false) ∧
    ∃ c, _NTFS_cache_constructor 2 16 40 1 true true 0 = some c ∧
      c.cacheEntries.length = max 2 4 :=
  ⟨constructor_spec.1 2 16 40 1 true true 5,
   ⟨_, rfl, (constructor_spec.2 2 16 40 1 true true _ rfl).1⟩⟩

/-! ## C5 -/

/-- C5: the dirty-bitmap update of the cached write path in
`_NTFS_cache_writeSectors` — `dirty ||| dirtyMask w lo`, the embedding of
`dirty |= ((1ULL << w) - 1) << lo` — sets exactly bits `lo, …, lo + w - 1`
and leaves every other bit unchanged, for every `1 ≤ w` with
`lo + w ≤ 64`; in particular for a full 64-sector page (`w = 64`). -/
theorem writeSectors_dirty_bits (d w lo i : Nat) (hw : 1 ≤ w) (hlw : lo + w ≤ 64) :
    (d ||| dirtyMask w lo).testBit i = (d.testBit i || decide (lo ≤ i ∧ i < lo + w)) := by
  have hw64 : w ≤ 64 := by omega
  have hpow : (2:Nat)^w ≤ 2^64 := Nat.pow_le_pow_right (by norm_num) hw64
  have hpos : (1:Nat) ≤ 2^w := Nat.one_le_two_pow
  have hmask : dirtyMask w lo = (2^w - 1) <<< lo := by
    unfold dirtyMask
    have h1 : (1 <<< w) = 2^w := by
      rw [Nat.shiftLeft_eq, Nat.one_mul]
    rw [h1]
    have h2 : ((2:Nat)^w % 2^64 + (2^64 - 1)) % 2^64 = 2^w - 1 := by omega
    rw [h2]
    have h3 : ((2:Nat)^w - 1) <<< lo < 2^64 := by
      rw [Nat.shiftLeft_eq]
      calc ((2:Nat)^w - 1) * 2^lo < 2^w * 2^lo := by
            have hp : (0:Nat) < 2^lo := Nat.pos_pow_of_pos lo (by norm_num)
            exact Nat.mul_lt_mul_of_lt_of_le (by omega) (le_refl _) hp
        _ = 2^(w + lo) := by rw [Nat.pow_add]
        _ ≤ 2^64 := Nat.pow_le_pow_right (by norm_num) (by omega)
    exact Nat.mod_eq_of_lt h3
  rw [hmask, Nat.testBit_or, Nat.testBit_shiftLeft, Nat.testBit_two_pow_sub_one]
  have hbits : (decide (i ≥ lo) && decide (i - lo < w)) = decide (lo ≤ i ∧ i < lo + w) := by
    rcases Nat.lt_or_ge i lo with h | h
    · have h1 : ¬ lo ≤ i := Nat.not_le.mpr h
      simp [h1]
    · have h2 : decide (i - lo < w) = decide (i < lo + w) := by
        rw [decide_eq_decide]
        omega
      simp [h, h2]
  rw [hbits]

/-- Witness for C5 at `d = 5`, a full page `w = 64`, `lo = 0`, bit 3. -/
theorem writeSectors_dirty_bits_witness :
    ((5 : Nat) ||| dirtyMask 64 0).testBit 3 =
      ((5 : Nat).testBit 3 || decide (0 ≤ 3 ∧ 3 < 0 + 64)) :=
  writeSectors_dirty_bits 5 64 0 3 (by decide) (by decide)

/-! ## C6 -/

/-- C6 (amended): a partial-sector operation called with
`offset + size > bytesPerSector`, and `write_le` with a width outside
{1, 2, 4}, return failure with the cache state completely unchanged, no
device I/O and no access-tick advance.  `read_le` with an invalid width
also returns failure, but only after performing the underlying partial
read, which may touch the cache (see the counterexample). -/
theorem precondition_failures :
    (∀ disc c sector offset size, c.bytesPerSector < offset + size →
      _NTFS_cache_readPartialSector disc c sector offset size = (false, c, [])) ∧
    (∀ disc c sector offset size sd, c.bytesPerSector < offset + size →
      _NTFS_cache_writePartialSector disc c sector offset size sd = (false, c, [])) ∧
    (∀ disc c sector offset size sd, c.bytesPerSector < offset + size →
      _NTFS_cache_eraseWritePartialSector disc c sector offset size sd = (false, c, [])) ∧
    (∀ disc c value sector offset size, size ≠ 1 → size ≠ 2 → size ≠ 4 →
      _NTFS_cache_writeLittleEndianValue disc c value sector offset size = (false, c, [])) ∧
    (∀ disc c sector offset numBytes, numBytes ≠ 1 → numBytes ≠ 2 → numBytes ≠ 4 →
      (_NTFS_cache_readLittleEndianValue disc c sector offset numBytes).1 = false) := by
  refine ⟨?_, ?_, ?_, ?_, ?_⟩
  · intro disc c sector offset size h
    unfold _NTFS_cache_readPartialSector
    simp [h]
  · intro disc c sector offset size sd h
    unfold _NTFS_cache_writePartialSector
    simp [h]
  · intro disc c sector offset size sd h
    unfold _NTFS_cache_eraseWritePartialSector
    simp [h]
  · intro disc c value sector offset size h1 h2 h4
    unfold _NTFS_cache_writeLittleEndianValue
    simp [h1, h2, h4]
  · intro disc c sector offset numBytes h1 h2 h4
    unfold _NTFS_cache_readLittleEndianValue
    rcases hp : _NTFS_cache_readPartialSector disc c sector offset numBytes with ⟨b, c', tr⟩
    cases b <;> simp [h1, h2, h4]

/-- Witness for C6 at concrete inputs. -/
theorem precondition_failures_witness :
    _NTFS_cache_readPartialSector ⟨fun _ _ => true, fun _ _ => true, fun _ => 0⟩
      ⟨100, 32, 512, [], 0⟩ 0 500 20 = (false, ⟨100, 32, 512, [], 0⟩, []) ∧
    _NTFS_cache_writeLittleEndianValue ⟨fun _ _ => true, fun _ _ => true, fun _ => 0⟩
      ⟨100, 32, 512, [], 0⟩ 7 0 0 3 = (false, ⟨100, 32, 512, [], 0⟩, []) ∧
    (_NTFS_cache_readLittleEndianValue ⟨fun _ _ => true, fun _ _ => true, fun _ => 0⟩
      ⟨100, 32, 512, [], 0⟩ 0 0 3).1 = false :=
  ⟨precondition_failures.1 _ _ 0 500 20 (by decide),
   precondition_failures.2.2.2.1 _ _ 7 0 0 3 (by decide) (by decide) (by decide),
   precondition_failures.2.2.2.2 _ _ 0 0 3 (by decide) (by decide) (by decide)⟩

/-- The device oracle that always succeeds and reads zero bytes. -/
def discAllOk : DISC_INTERFACE := ⟨fun _ _ => true, fun _ _ => true, fun _ => 0⟩

/-- A one-slot cache state holding the page `[0, 32)`, access counter 1. -/
def cHit : NTFS_CACHE :=
  { endOfPartition := 100, sectorsPerPage := 32, bytesPerSector := 512,
    cacheEntries := [{ sector := 0, count := 32, last_access := 1, dirty := 0,
                       buffer := [] }],
    accessCounter := 1 }

/-- Counterexample to C6 as stated: `read_le` with invalid width 3 returns
failure but does NOT leave the cache unchanged — the partial read it
performs first advances the access tick counter (and stamps the slot). -/
theorem readLE_invalid_width_mutates :
    (_NTFS_cache_readLittleEndianValue discAllOk cHit 0 0 3).1 = false ∧
    (_NTFS_cache_readLittleEndianValue discAllOk cHit 0 0 3).2.1.accessCounter = 2 ∧
    cHit.accessCounter = 1 := by
  refine ⟨?_, ?_, rfl⟩ <;> decide

/-! ## C7 -/

/-- A clean slot is unchanged by clearing its dirty bitmap. -/
theorem clean_self {x : NTFS_CACHE_ENTRY} (h : x.dirty = 0) : { x with dirty := 0 } = x := by
  cases x
  simp only at h
  simp only [NTFS_CACHE_ENTRY.mk.injEq, and_true, true_and]
  omega

/-- `getPage_fill` on a failing populate read: returns failure and wipes the
victim slot (FREE, count 0, access 0, dirty 0), whatever it held before. -/
theorem getPage_fill_read_failure (disc : DISC_INTERFACE) (c : NTFS_CACHE)
    (v sector numSectors : Nat) (write : Bool) (tr : List IOEvent) (sec str : Nat)
    (hv : v < c.cacheEntries.length)
    (hwin : populateWindow write (sector - pageBase c.sectorsPerPage sector)
      (clampNumSectors c sector numSectors) (pageCount c sector) = some (sec, str))
    (hread : disc.readOk (pageBase c.sectorsPerPage sector + sec) str = false) :
    (getPage_fill disc c v sector numSectors write tr).1 = none ∧
    ((getPage_fill disc c v sector numSectors write tr).2.1.cacheEntries.getD v
      default).sector = CACHE_FREE ∧
    ((getPage_fill disc c v sector numSectors write tr).2.1.cacheEntries.getD v
      default).count = 0 ∧
    ((getPage_fill disc c v sector numSectors write tr).2.1.cacheEntries.getD v
      default).last_access = 0 ∧
    ((getPage_fill disc c v sector numSectors write tr).2.1.cacheEntries.getD v
      default).dirty = 0 := by
  unfold getPage_fill
  simp only []
  rw [hwin]
  simp only []
  rw [if_neg (by simp [hread])]
  simp only []
  rw [getD_set_self hv]
  refine ⟨?_, ?_, ?_, ?_, ?_⟩ <;> trivial

/-- C7: on a miss whose populate device read fails, `_NTFS_cache_getPage`
returns failure and the victim slot is set FREE with `count = 0`,
`last_access = 0` and `dirty = 0`. -/
theorem getPage_populate_read_failure (disc : DISC_INTERFACE) (c : NTFS_CACHE)
    (sector numSectors : Nat) (write ff : Bool) (v sec str : Nat)
    (hv : v < c.cacheEntries.length)
    (hscan : getPage_scan c sector = (none, ff, v))
    (hwb : ff = false → (c.cacheEntries.getD v default).dirty ≠ 0 →
      disc.writeOk (wbStart (c.cacheEntries.getD v default))
        (wbLen (c.cacheEntries.getD v default)) = true)
    (hwin : populateWindow write (sector - pageBase c.sectorsPerPage sector)
      (clampNumSectors c sector numSectors) (pageCount c sector) = some (sec, str))
    (hread : disc.readOk (pageBase c.sectorsPerPage sector + sec) str = false) :
    (_NTFS_cache_getPage disc c sector numSectors write).1 = none ∧
    ((_NTFS_cache_getPage disc c sector numSectors write).2.1.cacheEntries.getD v
      default).sector = CACHE_FREE ∧
    ((_NTFS_cache_getPage disc c sector numSectors write).2.1.cacheEntries.getD v
      default).count = 0 ∧
    ((_NTFS_cache_getPage disc c sector numSectors write).2.1.cacheEntries.getD v
      default).last_access = 0 ∧
    ((_NTFS_cache_getPage disc c sector numSectors write).2.1.cacheEntries.getD v
      default).dirty = 0 := by
  unfold _NTFS_cache_getPage
  rw [hscan]
  simp only []
  split
  · next hcond =>
    have hff : ff = false := by
      cases ff
      · rfl
      · simp at hcond
    have hd : (c.cacheEntries.getD v default).dirty ≠ 0 := by
      rw [hff] at hcond
      simpa using hcond
    rw [hwb hff hd]
    rw [if_pos rfl]
    exact getPage_fill_read_failure disc _ v sector numSectors write _ sec str
      (by simpa [clearDirty] using hv) hwin hread
  · next hcond =>
    exact getPage_fill_read_failure disc c v sector numSectors write [] sec str hv hwin hread

/-- The device oracle on which every transfer fails. -/
def discAllFail : DISC_INTERFACE := ⟨fun _ _ => false, fun _ _ => false, fun _ => 0⟩

/-- Witness for C7: a one-FREE-slot cache, target sector 0, failing read. -/
theorem getPage_populate_read_failure_witness :
    (_NTFS_cache_getPage discAllFail
      ⟨100, 32, 1, [⟨CACHE_FREE, 0, 0, 0, List.replicate 32 0⟩], 0⟩ 0 1 false).1 = none ∧
    ((_NTFS_cache_getPage discAllFail
      ⟨100, 32, 1, [⟨CACHE_FREE, 0, 0, 0, List.replicate 32 0⟩], 0⟩ 0 1
      false).2.1.cacheEntries.getD 0 default).sector = CACHE_FREE := by
  have h := getPage_populate_read_failure discAllFail
    ⟨100, 32, 1, [⟨CACHE_FREE, 0, 0, 0, List.replicate 32 0⟩], 0⟩ 0 1 false true 0 0 32
    (by decide) (by decide) (by intro hff; simp at hff) (by decide) (by decide)
  exact ⟨h.1, h.2.1⟩

/-! ## C1 -/

/-- The failing tail of `flushLoop`: dirty slots before the failing one are
written back and cleaned in order, the slot whose device write fails and
every later slot are left untouched, and no writeback of a later slot is
attempted. -/
theorem flushLoop_failure (disc : DISC_INTERFACE) (pre : List NTFS_CACHE_ENTRY)
    (e : NTFS_CACHE_ENTRY) (post : List NTFS_CACHE_ENTRY)
    (hpre : ∀ x ∈ pre, x.dirty ≠ 0 → disc.writeOk (wbStart x) (wbLen x) = true)
    (he : e.dirty ≠ 0) (hw : disc.writeOk (wbStart e) (wbLen e) = false) :
    flushLoop disc (pre ++ e :: post) =
      (false, pre.map (fun x => { x with dirty := 0 }) ++ e :: post,
       (pre.filter (fun x => x.dirty != 0)).map wbEvent ++ [wbEvent e]) := by
  induction pre with
  | nil =>
    simp only [List.nil_append, List.map_nil, List.filter_nil]
    unfold flushLoop
    rw [if_pos he, if_neg (by simp [hw])]
  | cons x pre ih =>
    have hx := hpre x (by simp)
    have hpre' : ∀ y ∈ pre, y.dirty ≠ 0 → disc.writeOk (wbStart y) (wbLen y) = true :=
      fun y hy => hpre y (by simp [hy])
    by_cases hxd : x.dirty = 0
    · simp only [List.cons_append]
      unfold flushLoop
      rw [if_neg (by simp [hxd])]
      rw [ih hpre']
      simp [clean_self hxd, hxd]
    · simp only [List.cons_append]
      unfold flushLoop
      rw [if_pos hxd, if_pos (hx hxd)]
      rw [ih hpre']
      simp [hxd]

/-- C1: a failed contiguous writeback leaves the dirty slot fully intact.
During eviction in `_NTFS_cache_getPage`, the call fails and the entire
cache state is unchanged.  During `_NTFS_cache_flush`, the call fails,
slots already flushed are clean, the failing slot keeps its base sector
and dirty bitmap, and no later slot's writeback is attempted. -/
theorem writeback_failure_preserves_dirty :
    (∀ (disc : DISC_INTERFACE) (c : NTFS_CACHE) (sector numSectors : Nat) (write : Bool)
      (v : Nat),
      getPage_scan c sector = (none, false, v) →
      (c.cacheEntries.getD v default).dirty ≠ 0 →
      disc.writeOk (wbStart (c.cacheEntries.getD v default))
        (wbLen (c.cacheEntries.getD v default)) = false →
      _NTFS_cache_getPage disc c sector numSectors write =
        (none, c, [wbEvent (c.cacheEntries.getD v default)])) ∧
    (∀ (disc : DISC_INTERFACE) (c : NTFS_CACHE) (pre : List NTFS_CACHE_ENTRY)
      (e : NTFS_CACHE_ENTRY) (post : List NTFS_CACHE_ENTRY),
      c.cacheEntries = pre ++ e :: post →
      (∀ x ∈ pre, x.dirty ≠ 0 → disc.writeOk (wbStart x) (wbLen x) = true) →
      e.dirty ≠ 0 →
      disc.writeOk (wbStart e) (wbLen e) = false →
      _NTFS_cache_flush disc c =
        (false,
         { c with cacheEntries := pre.map (fun x => { x with dirty := 0 }) ++ e :: post },
         (pre.filter (fun x => x.dirty != 0)).map wbEvent ++ [wbEvent e])) := by
  constructor
  · intro disc c sector numSectors write v hscan hd hw
    unfold _NTFS_cache_getPage
    rw [hscan]
    simp only []
    rw [if_pos (by simpa using hd), if_neg (by simpa using hw)]
  · intro disc c pre e post hc hpre he hw
    unfold _NTFS_cache_flush
    rw [hc, flushLoop_failure disc pre e post hpre he hw]

/-- A one-dirty-slot cache used as the C1 witness. -/
def cDirty : NTFS_CACHE :=
  { endOfPartition := 100, sectorsPerPage := 32, bytesPerSector := 1,
    cacheEntries := [{ sector := 0, count := 32, last_access := 1, dirty := 5,
                       buffer := List.replicate 32 0 }],
    accessCounter := 1 }

/-- Witness for C1: failing writeback during eviction (target sector 50
misses, slot 0 is the victim) and during flush, on `cDirty`. -/
theorem writeback_failure_preserves_dirty_witness :
    _NTFS_cache_getPage discAllFail cDirty 50 1 false =
      (none, cDirty, [wbEvent (cDirty.cacheEntries.getD 0 default)]) ∧
    (_NTFS_cache_flush discAllFail cDirty).1 = false := by
  constructor
  · exact writeback_failure_preserves_dirty.1 discAllFail cDirty 50 1 false 0
      (by decide) (by decide) (by decide)
  · rw [writeback_failure_preserves_dirty.2 discAllFail cDirty []
      ⟨0, 32, 1, 5, List.replicate 32 0⟩ [] (by decide)
      (by intro x hx; simp at hx) (by decide) (by decide)]

/-! ## C4 -/

/-- `findPage_go` finds nothing when every non-FREE slot's range is
disjoint from `[sector, sector + count)` (with positive counts). -/
theorem findPage_go_none (sector count : Nat) (es : List NTFS_CACHE_ENTRY)
    (i : Nat) (lowest : Nat) (hn : 1 ≤ count)
    (h : ∀ e ∈ es, e.sector ≠ CACHE_FREE →
      1 ≤ e.count ∧ (e.sector + e.count ≤ sector ∨ sector + count ≤ e.sector)) :
    findPage_go sector count es i none lowest = none := by
  induction es generalizing i lowest with
  | nil => rfl
  | cons e rest ih =>
    unfold findPage_go
    by_cases hf : e.sector ≠ CACHE_FREE
    · rw [if_pos hf]
      have he := h e (by simp) hf
      have hint : (if sector > e.sector then decide (sector - e.sector < e.count)
          else decide (e.sector - sector < count)) = false := by
        rcases Nat.lt_or_ge e.sector sector with hlt | hge
        · rw [if_pos hlt]
          simp only [decide_eq_false_iff_not, Nat.not_lt]
          omega
        · rw [if_neg (by omega)]
          simp only [decide_eq_false_iff_not, Nat.not_lt]
          omega
      rw [hint]
      simp only [Bool.false_and, Bool.false_eq_true, if_false]
      exact ih (i + 1) lowest (fun e he' hf' => h e (by simp [he']) hf')
    · rw [if_neg hf]
      exact ih (i + 1) lowest (fun e he' hf' => h e (by simp [he']) hf')

/-- C4: an aligned bulk transfer of `k · S` sectors (32-byte-aligned
buffer, page-aligned start) fully disjoint from every cached page issues
exactly one device call moving all `k · S` sectors — a read for
`_NTFS_cache_readSectors`, a write for `_NTFS_cache_writeSectors` — and
leaves every cache slot (and the whole cache state) unchanged. -/
theorem bulk_bypass_single_call (disc : DISC_INTERFACE) (c : NTFS_CACHE)
    (t k dest src : Nat) (sd : Nat → Nat)
    (hS : 0 < c.sectorsPerPage)
    (hdest : dest % 32 = 0) (hsrc : src % 32 = 0)
    (ht : t % c.sectorsPerPage = 0) (hk : 1 ≤ k)
    (hdisj : ∀ e ∈ c.cacheEntries, e.sector ≠ CACHE_FREE →
      1 ≤ e.count ∧
      (e.sector + e.count ≤ t ∨ t + k * c.sectorsPerPage ≤ e.sector)) :
    _NTFS_cache_readSectors disc c t (k * c.sectorsPerPage) dest =
      some (disc.readOk t (k * c.sectorsPerPage), c,
            [IOEvent.read t (k * c.sectorsPerPage)]) ∧
    _NTFS_cache_writeSectors disc c t (k * c.sectorsPerPage) src sd =
      some (disc.writeOk t (k * c.sectorsPerPage), c,
            [IOEvent.write t (k * c.sectorsPerPage)]) := by
  have hks : 1 ≤ k * c.sectorsPerPage := Nat.mul_le_mul hk hS
  have hfp : _NTFS_cache_findPage c t (k * c.sectorsPerPage) = none :=
    findPage_go_none t (k * c.sectorsPerPage) c.cacheEntries 0 CACHE_FREE hks hdisj
  have hdiv : k * c.sectorsPerPage / c.sectorsPerPage * c.sectorsPerPage
      = k * c.sectorsPerPage := by
    rw [Nat.mul_div_cancel _ hS]
  constructor
  · obtain ⟨m, hm⟩ : ∃ m, k * c.sectorsPerPage = m + 1 :=
      ⟨k * c.sectorsPerPage - 1, by omega⟩
    unfold _NTFS_cache_readSectors
    rw [hm] at hfp hdiv ⊢
    unfold readLoop
    rcases hro : disc.readOk t (m + 1) with _ | _ <;>
      simp [bypassAmount, hdest, ht, hfp, hdiv, hro, readLoop_zero]
  · obtain ⟨m, hm⟩ : ∃ m, k * c.sectorsPerPage = m + 1 :=
      ⟨k * c.sectorsPerPage - 1, by omega⟩
    unfold _NTFS_cache_writeSectors
    rw [hm] at hfp hdiv ⊢
    unfold writeLoop
    rcases hro : disc.writeOk t (m + 1) with _ | _ <;>
      simp [bypassAmount, hsrc, ht, hfp, hdiv, hro, writeLoop_zero]

/-- A two-slot cache used as the C4 witness: one page `[64, 96)`, one FREE. -/
def cBulk : NTFS_CACHE :=
  { endOfPartition := 4096, sectorsPerPage := 32, bytesPerSector := 512,
    cacheEntries := [⟨64, 32, 1, 0, []⟩, ⟨CACHE_FREE, 0, 0, 0, []⟩],
    accessCounter := 1 }

/-- Witness for C4 at `t = 0`, `k = 1` on `cBulk`. -/
theorem bulk_bypass_single_call_witness :
    _NTFS_cache_readSectors discAllOk cBulk 0 (1 * cBulk.sectorsPerPage) 32 =
      some (discAllOk.readOk 0 (1 * cBulk.sectorsPerPage), cBulk,
            [IOEvent.read 0 (1 * cBulk.sectorsPerPage)]) ∧
    _NTFS_cache_writeSectors discAllOk cBulk 0 (1 * cBulk.sectorsPerPage) 64 (fun _ => 0) =
      some (discAllOk.writeOk 0 (1 * cBulk.sectorsPerPage), cBulk,
            [IOEvent.write 0 (1 * cBulk.sectorsPerPage)]) :=
  bulk_bypass_single_call discAllOk cBulk 0 1 32 64 (fun _ => 0)
    (by decide) (by decide) (by decide) (by decide) (by decide) (by decide)

/-! ## C3 -/

/-- An in-bounds `getD` is a member of the list. -/
theorem getD_mem {l : List NTFS_CACHE_ENTRY} {j : Nat} (h : j < l.length) :
    l.getD j default ∈ l := by
  rw [List.getD_eq_getElem?_getD, List.getElem?_eq_getElem h]
  exact List.getElem_mem h

/-- Once `foundFree` is set, the scan keeps the recorded victim. -/
theorem cacheScan_foundFree (sector : Nat) (es : List NTFS_CACHE_ENTRY) (i u a : Nat)
    (hmiss : ∀ e ∈ es, hitTest e sector = false) :
    cacheScan sector es i true u a = (none, true, u) := by
  induction es generalizing i a with
  | nil => rfl
  | cons e rest ih =>
    unfold cacheScan
    rw [hmiss e (by simp), if_neg (by simp), if_neg (by simp)]
    exact ih (i + 1) a (fun x hx => hmiss x (by simp [hx]))

/-- On a miss with a FREE slot present, the scan picks the first FREE slot. -/
theorem cacheScan_firstFree (sector : Nat) (es : List NTFS_CACHE_ENTRY) (i u a : Nat)
    (hmiss : ∀ e ∈ es, hitTest e sector = false)
    (hfree : ∃ e ∈ es, e.sector = CACHE_FREE) :
    ∃ kf, kf < es.length ∧ cacheScan sector es i false u a = (none, true, i + kf) ∧
      (es.getD kf default).sector = CACHE_FREE ∧
      ∀ j < kf, (es.getD j default).sector ≠ CACHE_FREE := by
  induction es generalizing i u a with
  | nil => simp at hfree
  | cons e rest ih =>
    unfold cacheScan
    rw [hmiss e (by simp), if_neg (by simp)]
    by_cases hef : e.sector = CACHE_FREE
    · rw [if_pos (by simp [hef])]
      rw [show (decide (e.sector = CACHE_FREE)) = true by simp [hef]]
      rw [cacheScan_foundFree sector rest (i + 1) i e.last_access
        (fun x hx => hmiss x (by simp [hx]))]
      refine ⟨0, by simp, by simp, by simpa using hef, by omega⟩
    · have hfree' : ∃ x ∈ rest, x.sector = CACHE_FREE := by
        rcases hfree with ⟨x, hx, hxf⟩
        rcases List.mem_cons.mp hx with rfl | hx'
        · exact absurd hxf hef
        · exact ⟨x, hx', hxf⟩
      have hmiss' : ∀ x ∈ rest, hitTest x sector = false :=
        fun x hx => hmiss x (by simp [hx])
      by_cases hla : e.last_access < a
      · rw [if_pos (by simp [hef, hla])]
        rw [show (decide (e.sector = CACHE_FREE)) = false by simp [hef]]
        obtain ⟨kf, hk, hsc, hkf, hpre⟩ := ih (i + 1) i e.last_access hmiss' hfree'
        refine ⟨kf + 1, by simpa using hk, ?_, by simpa using hkf, ?_⟩
        · rw [show i + (kf + 1) = i + 1 + kf by omega]
          exact hsc
        · intro j hj
          cases j with
          | zero => simpa using hef
          | succ j' =>
            rw [List.getD_cons_succ]
            exact hpre j' (by omega)
      · rw [if_neg (by simp [hef, hla])]
        obtain ⟨kf, hk, hsc, hkf, hpre⟩ := ih (i + 1) u a hmiss' hfree'
        refine ⟨kf + 1, by simpa using hk, ?_, by simpa using hkf, ?_⟩
        · rw [show i + (kf + 1) = i + 1 + kf by omega]
          exact hsc
        · intro j hj
          cases j with
          | zero => simpa using hef
          | succ j' =>
            rw [List.getD_cons_succ]
            exact hpre j' (by omega)

/-- On a miss with no FREE slot, the scan picks the first slot attaining
the minimum `last_access` strictly below the running bound `a`, or keeps
the incoming victim `u` when no slot goes below `a`. -/
theorem cacheScan_lru (sector : Nat) (es : List NTFS_CACHE_ENTRY) (i u a : Nat)
    (hmiss : ∀ e ∈ es, hitTest e sector = false)
    (hnf : ∀ e ∈ es, e.sector ≠ CACHE_FREE) :
    ∃ r, cacheScan sector es i false u a = (none, false, r) ∧
      ((r = u ∧ ∀ e ∈ es, a ≤ e.last_access) ∨
       (∃ kk, kk < es.length ∧ r = i + kk ∧
         (es.getD kk default).last_access < a ∧
         (∀ j < es.length,
           (es.getD kk default).last_access ≤ (es.getD j default).last_access) ∧
         (∀ j < kk,
           (es.getD kk default).last_access < (es.getD j default).last_access))) := by
  induction es generalizing i u a with
  | nil => exact ⟨u, rfl, Or.inl ⟨rfl, by simp⟩⟩
  | cons e rest ih =>
    unfold cacheScan
    rw [hmiss e (by simp), if_neg (by simp)]
    have hef : e.sector ≠ CACHE_FREE := hnf e (by simp)
    have hmiss' : ∀ x ∈ rest, hitTest x sector = false :=
      fun x hx => hmiss x (by simp [hx])
    have hnf' : ∀ x ∈ rest, x.sector ≠ CACHE_FREE :=
      fun x hx => hnf x (by simp [hx])
    by_cases hla : e.last_access < a
    · rw [if_pos (by simp [hef, hla])]
      rw [show (decide (e.sector = CACHE_FREE)) = false by simp [hef]]
      obtain ⟨r, hsc, hcase⟩ := ih (i + 1) i e.last_access hmiss' hnf'
      refine ⟨r, hsc, Or.inr ?_⟩
      rcases hcase with ⟨hr, hall⟩ | ⟨kk, hkk, hr, hlt, hle, hstrict⟩
      · refine ⟨0, by simp, by omega, by simpa using hla, ?_, by omega⟩
        intro j hj
        cases j with
        | zero => simp
        | succ j' =>
          simp only [List.getD_cons_zero, List.getD_cons_succ]
          exact hall (rest.getD j' default) (getD_mem (by simpa using hj))
      · refine ⟨kk + 1, by simpa using hkk, by omega, ?_, ?_, ?_⟩
        · rw [List.getD_cons_succ]
          omega
        · intro j hj
          cases j with
          | zero =>
            simp only [List.getD_cons_zero, List.getD_cons_succ]
            omega
          | succ j' =>
            simp only [List.getD_cons_succ]
            exact hle j' (by simpa using hj)
        · intro j hj
          cases j with
          | zero =>
            simp only [List.getD_cons_zero, List.getD_cons_succ]
            omega
          | succ j' =>
            simp only [List.getD_cons_succ]
            exact hstrict j' (by omega)
    · rw [if_neg (by simp [hef, hla])]
      obtain ⟨r, hsc, hcase⟩ := ih (i + 1) u a hmiss' hnf'
      refine ⟨r, hsc, ?_⟩
      rcases hcase with ⟨hr, hall⟩ | ⟨kk, hkk, hr, hlt, hle, hstrict⟩
      · refine Or.inl ⟨hr, ?_⟩
        intro x hx
        rcases List.mem_cons.mp hx with rfl | hx'
        · omega
        · exact hall x hx'
      · refine Or.inr ⟨kk + 1, by simpa using hkk, by omega, ?_, ?_, ?_⟩
        · rw [List.getD_cons_succ]
          omega
        · intro j hj
          cases j with
          | zero =>
            simp only [List.getD_cons_zero, List.getD_cons_succ]
            omega
          | succ j' =>
            simp only [List.getD_cons_succ]
            exact hle j' (by simpa using hj)
        · intro j hj
          cases j with
          | zero =>
            simp only [List.getD_cons_zero, List.getD_cons_succ]
            omega
          | succ j' =>
            simp only [List.getD_cons_succ]
            exact hstrict j' (by omega)

/-- C3: on a miss, the victim chosen by the scan of `_NTFS_cache_getPage`
is the lowest-indexed FREE slot when one exists, and otherwise the slot
with the smallest `last_access`, ties resolving to the smallest index. -/
theorem victim_selection (c : NTFS_CACHE) (t : Nat)
    (hne : c.cacheEntries ≠ [])
    (hmiss : ∀ e ∈ c.cacheEntries, hitTest e t = false)
    (hla : ∀ e ∈ c.cacheEntries, e.last_access < 2^32) :
    (getPage_scan c t).1 = none ∧
    (getPage_scan c t).2.2 < c.cacheEntries.length ∧
    ((∃ e ∈ c.cacheEntries, e.sector = CACHE_FREE) →
      (c.cacheEntries.getD (getPage_scan c t).2.2 default).sector = CACHE_FREE ∧
      ∀ j < (getPage_scan c t).2.2,
        (c.cacheEntries.getD j default).sector ≠ CACHE_FREE) ∧
    ((∀ e ∈ c.cacheEntries, e.sector ≠ CACHE_FREE) →
      (∀ j < c.cacheEntries.length,
        (c.cacheEntries.getD (getPage_scan c t).2.2 default).last_access ≤
          (c.cacheEntries.getD j default).last_access) ∧
      (∀ j < (getPage_scan c t).2.2,
        (c.cacheEntries.getD (getPage_scan c t).2.2 default).last_access <
          (c.cacheEntries.getD j default).last_access)) := by
  by_cases hfree : ∃ e ∈ c.cacheEntries, e.sector = CACHE_FREE
  · obtain ⟨kf, hk, hsc, hkf, hpre⟩ :=
      cacheScan_firstFree t c.cacheEntries 0 0 (2^32 - 1) hmiss hfree
    have hv : getPage_scan c t = (none, true, kf) := by
      unfold getPage_scan
      rw [hsc]
      simp
    rw [hv]
    refine ⟨rfl, by simpa using hk, fun _ => ⟨hkf, hpre⟩, fun hnf => ?_⟩
    rcases hfree with ⟨x, hx, hxf⟩
    exact absurd hxf (hnf x hx)
  · have hnf : ∀ e ∈ c.cacheEntries, e.sector ≠ CACHE_FREE := by
      intro x hx hxf
      exact hfree ⟨x, hx, hxf⟩
    obtain ⟨r, hsc, hcase⟩ := cacheScan_lru t c.cacheEntries 0 0 (2^32 - 1) hmiss hnf
    have hv : getPage_scan c t = (none, false, r) := hsc
    have h1 : (getPage_scan c t).1 = none := by rw [hv]
    rcases hcase with ⟨hr, hall⟩ | ⟨kk, hkk, hr, hlt, hle, hstrict⟩
    · have h2 : (getPage_scan c t).2.2 = 0 := by
        rw [hv]
        show r = 0
        omega
      have hlen : 0 < c.cacheEntries.length := by
        cases hce : c.cacheEntries with
        | nil => exact absurd hce hne
        | cons x l => simp [hce]
      refine ⟨h1, ?_, fun hf => absurd hf hfree, fun _ => ⟨?_, ?_⟩⟩
      · rw [h2]
        exact hlen
      · rw [h2]
        intro j hj
        have h0 : 2^32 - 1 ≤ (c.cacheEntries.getD 0 default).last_access :=
          hall _ (getD_mem hlen)
        have h0' : (c.cacheEntries.getD 0 default).last_access < 2^32 :=
          hla _ (getD_mem hlen)
        have hj1 : 2^32 - 1 ≤ (c.cacheEntries.getD j default).last_access :=
          hall _ (getD_mem hj)
        omega
      · rw [h2]
        intro j hj
        omega
    · have h2 : (getPage_scan c t).2.2 = kk := by
        rw [hv]
        show r = kk
        omega
      refine ⟨h1, ?_, fun hf => absurd hf hfree, fun _ => ⟨?_, ?_⟩⟩
      · rw [h2]
        exact hkk
      · rw [h2]
        exact hle
      · rw [h2]
        exact hstrict

/-- A two-slot cache (one used page, one FREE) for the C3 witness. -/
def cMixed : NTFS_CACHE :=
  { endOfPartition := 4096, sectorsPerPage := 32, bytesPerSector := 512,
    cacheEntries := [⟨0, 32, 5, 0, []⟩, ⟨CACHE_FREE, 0, 0, 0, []⟩],
    accessCounter := 5 }

/-- Witness for C3: on `cMixed` and a miss at sector 100, the victim is the
FREE slot at index 1. -/
theorem victim_selection_witness :
    (getPage_scan cMixed 100).1 = none ∧
    (cMixed.cacheEntries.getD (getPage_scan cMixed 100).2.2 default).sector
      = CACHE_FREE := by
  have h := victim_selection cMixed 100 (by decide) (by decide) (by decide)
  exact ⟨h.1, (h.2.2.1 ⟨⟨CACHE_FREE, 0, 0, 0, []⟩, by decide, rfl⟩).1⟩

/-! ## C2 -/

/-- Case analysis of the write-allocate window selection. -/
theorem populateWindow_cases (lo n cnt : Nat) :
    (lo = 0 ∧ n = cnt → populateWindow true lo n cnt = none) ∧
    (lo = 0 ∧ n < cnt → populateWindow true lo n cnt = some (n, cnt - n)) ∧
    (0 < lo ∧ lo + n = cnt → populateWindow true lo n cnt = some (0, cnt - n)) ∧
    (0 < lo ∧ lo + n ≠ cnt → populateWindow true lo n cnt = some (0, cnt)) := by
  refine ⟨?_, ?_, ?_, ?_⟩ <;> intro h <;> unfold populateWindow
  · rw [if_pos (by simp [h.1, h.2])]
  · rw [if_neg (by simp [h.1]; omega), if_pos (by simp [h.1])]
  · rw [if_neg (by simp; omega), if_neg (by simp; omega), if_pos (by simp [h.2])]
  · rw [if_neg (by simp; omega), if_neg (by simp; omega), if_neg (by simp [h.2])]

/-- The populate reads issued by `getPage_fill` with `write = true`, by
window case; the device call is appended to the trace whether or not it
succeeds, and in the fully-elided case the slot index is returned with no
read at all. -/
theorem getPage_fill_trace (disc : DISC_INTERFACE) (c : NTFS_CACHE) (v t n : Nat)
    (tr : List IOEvent) :
    (t - pageBase c.sectorsPerPage t = 0 ∧ clampNumSectors c t n = pageCount c t →
      (getPage_fill disc c v t n true tr).1 = some v ∧
      (getPage_fill disc c v t n true tr).2.2 = tr) ∧
    (t - pageBase c.sectorsPerPage t = 0 ∧ clampNumSectors c t n < pageCount c t →
      (getPage_fill disc c v t n true tr).2.2 =
        tr ++ [IOEvent.read (pageBase c.sectorsPerPage t + clampNumSectors c t n)
               (pageCount c t - clampNumSectors c t n)]) ∧
    (0 < t - pageBase c.sectorsPerPage t ∧
      t - pageBase c.sectorsPerPage t + clampNumSectors c t n = pageCount c t →
      (getPage_fill disc c v t n true tr).2.2 =
        tr ++ [IOEvent.read (pageBase c.sectorsPerPage t)
               (t - pageBase c.sectorsPerPage t)]) ∧
    (0 < t - pageBase c.sectorsPerPage t ∧
      t - pageBase c.sectorsPerPage t + clampNumSectors c t n ≠ pageCount c t →
      (getPage_fill disc c v t n true tr).2.2 =
        tr ++ [IOEvent.read (pageBase c.sectorsPerPage t) (pageCount c t)]) := by
  have hc := populateWindow_cases (t - pageBase c.sectorsPerPage t)
    (clampNumSectors c t n) (pageCount c t)
  refine ⟨?_, ?_, ?_, ?_⟩ <;> intro h
  · unfold getPage_fill
    simp only []
    rw [hc.1 h]
    exact ⟨rfl, rfl⟩
  · unfold getPage_fill
    simp only []
    rw [hc.2.1 h]
    simp only []
    rcases hro : disc.readOk (pageBase c.sectorsPerPage t + clampNumSectors c t n)
        (pageCount c t - clampNumSectors c t n) with _ | _
    · rw [if_neg (by simp [hro])]
    · rw [if_pos (by simp [hro])]
  · unfold getPage_fill
    simp only []
    rw [hc.2.2.1 h]
    have harg : pageCount c t - clampNumSectors c t n = t - pageBase c.sectorsPerPage t := by
      omega
    rw [harg]
    simp only []
    rcases hro : disc.readOk (pageBase c.sectorsPerPage t + 0)
        (t - pageBase c.sectorsPerPage t) with _ | _
    · rw [if_neg (by simp [hro])]
      simp
    · rw [if_pos (by simp [hro])]
      simp
  · unfold getPage_fill
    simp only []
    rw [hc.2.2.2 h]
    simp only []
    rcases hro : disc.readOk (pageBase c.sectorsPerPage t + 0) (pageCount c t) with _ | _
    · rw [if_neg (by simp [hro])]
      simp
    · rw [if_pos (by simp [hro])]
      simp

/-- C2: the device reads issued on a write-allocate miss (`write = true`)
in `_NTFS_cache_getPage`, with `base = (t / S) · S`, `lo = t - base`,
`cnt = min S (E - base)` and `n' = min n (cnt - lo)`: full overwrite loads
nothing and returns the slot valid; a prefix overwrite reads `[n', cnt)`;
a suffix overwrite reads `[0, lo)`; anything else reads the whole
`[0, cnt)`. -/
theorem getPage_write_allocate_reads (disc : DISC_INTERFACE) (c : NTFS_CACHE)
    (t n : Nat) (ff : Bool) (v : Nat) (base lo cnt n' : Nat)
    (hS : 0 < c.sectorsPerPage) (hE : c.endOfPartition < 2^32)
    (ht : t < c.endOfPartition)
    (hscan : getPage_scan c t = (none, ff, v))
    (hwb : ff = false → (c.cacheEntries.getD v default).dirty ≠ 0 →
      disc.writeOk (wbStart (c.cacheEntries.getD v default))
        (wbLen (c.cacheEntries.getD v default)) = true)
    (hbase : base = t / c.sectorsPerPage * c.sectorsPerPage)
    (hlo : lo = t - base)
    (hcnt : cnt = min c.sectorsPerPage (c.endOfPartition - base))
    (hn : n' = min n (cnt - lo)) :
    (lo = 0 ∧ n' = cnt →
      (_NTFS_cache_getPage disc c t n true).1 = some v ∧
      (_NTFS_cache_getPage disc c t n true).2.2.filter IOEvent.isRead = []) ∧
    (lo = 0 ∧ n' < cnt →
      (_NTFS_cache_getPage disc c t n true).2.2.filter IOEvent.isRead =
        [IOEvent.read (base + n') (cnt - n')]) ∧
    (0 < lo ∧ lo + n' = cnt →
      (_NTFS_cache_getPage disc c t n true).2.2.filter IOEvent.isRead =
        [IOEvent.read base lo]) ∧
    (0 < lo ∧ lo + n' ≠ cnt →
      (_NTFS_cache_getPage disc c t n true).2.2.filter IOEvent.isRead =
        [IOEvent.read base cnt]) := by
  have hpb : pageBase c.sectorsPerPage t = base := by
    rw [hbase]
    rfl
  have hble : base ≤ t := by
    rw [hbase]
    exact Nat.div_mul_le_self t c.sectorsPerPage
  have hdm : t / c.sectorsPerPage * c.sectorsPerPage + t % c.sectorsPerPage = t :=
    Nat.div_add_mod' t c.sectorsPerPage
  have hmlt := Nat.mod_lt t hS
  have hlot : t - base = t % c.sectorsPerPage := by
    rw [hbase]
    omega
  have hpc : pageCount c t = cnt := by
    unfold pageCount
    simp only []
    rw [hpb, usub32_eq_sub (by omega) hE, hcnt]
    split <;> omega
  have hlocnt : t - base < cnt := by
    rw [hcnt]
    have : t - base < c.sectorsPerPage := by omega
    omega
  have hcl : clampNumSectors c t n = n' := by
    unfold clampNumSectors
    simp only []
    rw [hpb, hpc]
    rw [usub32_eq_sub (by omega) (by omega)]
    rw [hn, hlo]
    split <;> omega
  unfold _NTFS_cache_getPage
  rw [hscan]
  simp only []
  split
  · next hcond =>
    have hff : ff = false := by
      cases ff
      · rfl
      · simp at hcond
    have hd : (c.cacheEntries.getD v default).dirty ≠ 0 := by
      rw [hff] at hcond
      simpa using hcond
    rw [hwb hff hd]
    rw [if_pos rfl]
    have hf := getPage_fill_trace disc (clearDirty c v)
      v t n [wbEvent (c.cacheEntries.getD v default)]
    have hq1 : pageBase (clearDirty c v).sectorsPerPage t = pageBase c.sectorsPerPage t := rfl
    have hq2 : pageCount (clearDirty c v) t = pageCount c t := rfl
    have hq3 : clampNumSectors (clearDirty c v) t n = clampNumSectors c t n := rfl
    simp only [hq1, hq2, hq3] at hf
    rw [hpb, hpc, hcl] at hf
    refine ⟨fun h => ?_, fun h => ?_, fun h => ?_, fun h => ?_⟩
    · obtain ⟨h1, h2⟩ := hf.1 ⟨by omega, by omega⟩
      rw [h1, h2]
      simp [wbEvent, IOEvent.isRead]
    · rw [hf.2.1 ⟨by omega, by omega⟩]
      simp [wbEvent, IOEvent.isRead]
    · rw [hf.2.2.1 ⟨by omega, by omega⟩]
      simp [wbEvent, IOEvent.isRead, hlo]
    · rw [hf.2.2.2 ⟨by omega, by omega⟩]
      simp [wbEvent, IOEvent.isRead]
  · next hcond =>
    have hf := getPage_fill_trace disc c v t n []
    rw [hpb, hpc, hcl] at hf
    refine ⟨fun h => ?_, fun h => ?_, fun h => ?_, fun h => ?_⟩
    · obtain ⟨h1, h2⟩ := hf.1 ⟨by omega, by omega⟩
      rw [h1, h2]
      simp
    · rw [hf.2.1 ⟨by omega, by omega⟩]
      simp [IOEvent.isRead]
    · rw [hf.2.2.1 ⟨by omega, by omega⟩]
      simp [IOEvent.isRead, hlo]
    · rw [hf.2.2.2 ⟨by omega, by omega⟩]
      simp [IOEvent.isRead]

/-- A one-FREE-slot cache for the C2 witness. -/
def cW : NTFS_CACHE :=
  { endOfPartition := 100, sectorsPerPage := 32, bytesPerSector := 1,
    cacheEntries := [⟨CACHE_FREE, 0, 0, 0, List.replicate 32 0⟩],
    accessCounter := 0 }

/-- Witness for C2: write-allocate miss at `t = 0` with `n = 5` on a
32-sector page reads exactly the window `[5, 32)`. -/
theorem getPage_write_allocate_reads_witness :
    (_NTFS_cache_getPage discAllOk cW 0 5 true).2.2.filter IOEvent.isRead =
      [IOEvent.read (0 + 5) (32 - 5)] := by
  have h := getPage_write_allocate_reads discAllOk cW 0 5 true 0 0 0 32 5
    (by decide) (by decide) (by decide) (by decide)
    (by intro hff; exact absurd hff (by decide))
    (by decide) (by decide) (by decide) (by decide)
  exact h.2.1 ⟨rfl, by decide⟩

/-! ## C8 -/

theorem getD_out_of_range {l : List NTFS_CACHE_ENTRY} {j : Nat} (h : l.length ≤ j) :
    l.getD j default = default := by
  rw [List.getD_eq_getElem?_getD, List.getElem?_eq_none h]
  rfl

/-- If the scan misses, no slot passes the hit test. -/
theorem cacheScan_none_no_hit (sector : Nat) (es : List NTFS_CACHE_ENTRY)
    (i : Nat) (ff : Bool) (u a : Nat)
    (h : (cacheScan sector es i ff u a).1 = none) :
    ∀ e ∈ es, hitTest e sector = false := by
  induction es generalizing i ff u a with
  | nil => intro e he; simp at he
  | cons e rest ih =>
    intro x hx
    unfold cacheScan at h
    by_cases hh : hitTest e sector = true
    · rw [if_pos hh] at h
      simp at h
    · rcases List.mem_cons.mp hx with rfl | hx'
      · simpa using hh
      · rw [if_neg hh] at h
        split at h
        · exact ih (i + 1) _ i e.last_access h x hx'
        · exact ih (i + 1) ff u a h x hx'

/-- `CacheInv` only looks at the configuration and each slot's
`sector`/`count`. -/
theorem CacheInv_of_fields (c c' : NTFS_CACHE)
    (hS : c'.sectorsPerPage = c.sectorsPerPage)
    (hE : c'.endOfPartition = c.endOfPartition)
    (hlen : c'.cacheEntries.length = c.cacheEntries.length)
    (hsec : ∀ j, (c'.cacheEntries.getD j default).sector =
      (c.cacheEntries.getD j default).sector)
    (hcnt : ∀ j, (c'.cacheEntries.getD j default).count =
      (c.cacheEntries.getD j default).count)
    (hinv : CacheInv c) : CacheInv c' := by
  obtain ⟨h1, h2, h3, h4⟩ := hinv
  refine ⟨by rwa [hS], by rwa [hE], ?_, ?_⟩
  · intro i hi hf
    rw [hS, hE, hsec i, hcnt i]
    exact h3 i (by omega) (by rwa [hsec i] at hf)
  · intro i j hi hj hij hfi hfj
    rw [hsec i, hsec j]
    exact h4 i j (by omega) (by omega) hij
      (by rwa [hsec i] at hfi) (by rwa [hsec j] at hfj)

/-- Setting a slot without changing its `sector`/`count` preserves the
invariant (the configuration may also carry a new access counter). -/
theorem CacheInv_set_same (c : NTFS_CACHE) (i : Nat) (x : NTFS_CACHE_ENTRY) (ctr : Nat)
    (hsec : x.sector = (c.cacheEntries.getD i default).sector)
    (hcnt : x.count = (c.cacheEntries.getD i default).count)
    (hinv : CacheInv c) :
    CacheInv { c with cacheEntries := c.cacheEntries.set i x, accessCounter := ctr } := by
  have key : ∀ j, (c.cacheEntries.set i x).getD j default = c.cacheEntries.getD j default ∨
      ((c.cacheEntries.set i x).getD j default = x ∧ j = i) := by
    intro j
    by_cases hij : i = j
    · subst hij
      by_cases hi : i < c.cacheEntries.length
      · exact Or.inr ⟨getD_set_self hi, rfl⟩
      · rw [List.set_eq_of_length_le (by omega)]
        exact Or.inl rfl
    · rw [getD_set_ne hij]
      exact Or.inl rfl
  refine CacheInv_of_fields c _ rfl rfl (by simp) ?_ ?_ hinv
  · intro j
    show ((c.cacheEntries.set i x).getD j default).sector =
      (c.cacheEntries.getD j default).sector
    rcases key j with h | ⟨h, rfl⟩
    · rw [h]
    · rw [h]
      exact hsec
  · intro j
    show ((c.cacheEntries.set i x).getD j default).count =
      (c.cacheEntries.getD j default).count
    rcases key j with h | ⟨h, rfl⟩
    · rw [h]
    · rw [h]
      exact hcnt

/-- `touchEntry` preserves the invariant. -/
theorem CacheInv_touchEntry (c : NTFS_CACHE) (i : Nat) (hinv : CacheInv c) :
    CacheInv (touchEntry c i) :=
  CacheInv_set_same c i _ _ rfl rfl hinv

/-- `clearDirty` preserves the invariant. -/
theorem CacheInv_clearDirty (c : NTFS_CACHE) (i : Nat) (hinv : CacheInv c) :
    CacheInv (clearDirty c i) := by
  have h := CacheInv_set_same c i
    { c.cacheEntries.getD i default with dirty := 0 } c.accessCounter rfl rfl hinv
  exact CacheInv_of_fields _ _ rfl rfl (by simp [clearDirty]) (fun j => rfl) (fun j => rfl) h

theorem pageBase_le (S t : Nat) : pageBase S t ≤ t := Nat.div_mul_le_self t S

theorem pageBase_dvd (S t : Nat) : S ∣ pageBase S t :=
  ⟨t / S, Nat.mul_comm (t / S) S⟩

theorem pageCount_min (c : NTFS_CACHE) (t : Nat) (hE : c.endOfPartition < 2^32)
    (hb : pageBase c.sectorsPerPage t ≤ c.endOfPartition) :
    pageCount c t = min c.sectorsPerPage
      (c.endOfPartition - pageBase c.sectorsPerPage t) := by
  unfold pageCount
  simp only []
  rw [usub32_eq_sub hb hE]
  split <;> omega

/-- Wiping a slot to FREE preserves the invariant. -/
theorem CacheInv_set_free (c : NTFS_CACHE) (v : Nat) (x : NTFS_CACHE_ENTRY)
    (hx : x.sector = CACHE_FREE) (hinv : CacheInv c) :
    CacheInv { c with cacheEntries := c.cacheEntries.set v x } := by
  obtain ⟨h1, h2, h3, h4⟩ := hinv
  have key : ∀ j, (c.cacheEntries.set v x).getD j default = c.cacheEntries.getD j default ∨
      (c.cacheEntries.set v x).getD j default = x := by
    intro j
    by_cases hij : v = j
    · subst hij
      by_cases hi : v < c.cacheEntries.length
      · exact Or.inr (getD_set_self hi)
      · rw [List.set_eq_of_length_le (by omega)]
        exact Or.inl rfl
    · rw [getD_set_ne hij]
      exact Or.inl rfl
  refine ⟨h1, h2, ?_, ?_⟩
  · intro i hi hf
    have hi' : i < c.cacheEntries.length := by simpa using hi
    have hf' : ((c.cacheEntries.set v x).getD i default).sector ≠ CACHE_FREE := hf
    show c.sectorsPerPage ∣ ((c.cacheEntries.set v x).getD i default).sector ∧
      ((c.cacheEntries.set v x).getD i default).sector < c.endOfPartition ∧
      ((c.cacheEntries.set v x).getD i default).count =
        min c.sectorsPerPage
          (c.endOfPartition - ((c.cacheEntries.set v x).getD i default).sector)
    rcases key i with h | h
    · rw [h]
      rw [h] at hf'
      exact h3 i hi' hf'
    · rw [h] at hf'
      exact absurd hx hf'
  · intro i j hi hj hij hfi hfj
    have hi' : i < c.cacheEntries.length := by simpa using hi
    have hj' : j < c.cacheEntries.length := by simpa using hj
    have hfi' : ((c.cacheEntries.set v x).getD i default).sector ≠ CACHE_FREE := hfi
    have hfj' : ((c.cacheEntries.set v x).getD j default).sector ≠ CACHE_FREE := hfj
    show ((c.cacheEntries.set v x).getD i default).sector ≠
      ((c.cacheEntries.set v x).getD j default).sector
    rcases key i with hki | hki
    · rcases key j with hkj | hkj
      · rw [hki, hkj]
        rw [hki] at hfi'
        rw [hkj] at hfj'
        exact h4 i j hi' hj' hij hfi' hfj'
      · rw [hkj] at hfj'
        exact absurd hx hfj'
    · rw [hki] at hfi'
      exact absurd hx hfi'

/-- The hit test holds for a slot of the invariant-shape covering the page
of an in-partition target. -/
theorem hitTest_of_covers (c : NTFS_CACHE) (t : Nat) (e : NTFS_CACHE_ENTRY)
    (hS : 0 < c.sectorsPerPage) (hE : c.endOfPartition < 2^32)
    (ht : t < c.endOfPartition)
    (hsec : e.sector = pageBase c.sectorsPerPage t)
    (hcnt : e.count = min c.sectorsPerPage (c.endOfPartition - e.sector)) :
    hitTest e t = true := by
  have hble : pageBase c.sectorsPerPage t ≤ t := pageBase_le _ _
  have hdm : t / c.sectorsPerPage * c.sectorsPerPage + t % c.sectorsPerPage = t :=
    Nat.div_add_mod' t c.sectorsPerPage
  have hmlt := Nat.mod_lt t hS
  have hlt : t < e.sector + e.count := by
    rw [hcnt, hsec]
    unfold pageBase at hdm ⊢
    omega
  have hsum : e.sector + e.count ≤ c.endOfPartition := by
    rw [hcnt]
    have : e.sector ≤ t := by rw [hsec]; exact hble
    omega
  unfold hitTest
  rw [show (e.sector + e.count) % 2^32 = e.sector + e.count from
    Nat.mod_eq_of_lt (by omega)]
  simp only [Bool.and_eq_true, decide_eq_true_eq]
  exact ⟨by rw [hsec]; exact hble, hlt⟩

/-- Rebasing a slot onto the page of an in-partition target that misses the
whole cache preserves the invariant. -/
theorem CacheInv_set_rebase (c : NTFS_CACHE) (v t : Nat) (x : NTFS_CACHE_ENTRY)
    (hinv : CacheInv c) (ht : t < c.endOfPartition)
    (hmiss : ∀ e ∈ c.cacheEntries, hitTest e t = false)
    (hxs : x.sector = pageBase c.sectorsPerPage t)
    (hxc : x.count = pageCount c t) :
    CacheInv { c with cacheEntries := c.cacheEntries.set v x } := by
  obtain ⟨h1, h2, h3, h4⟩ := hinv
  have hble : pageBase c.sectorsPerPage t ≤ t := pageBase_le _ _
  have hpc := pageCount_min c t h2 (by omega)
  have hxok : c.sectorsPerPage ∣ x.sector ∧ x.sector < c.endOfPartition ∧
      x.count = min c.sectorsPerPage (c.endOfPartition - x.sector) := by
    refine ⟨hxs ▸ pageBase_dvd _ _, by omega, ?_⟩
    rw [hxc, hpc, hxs]
  have hother : ∀ j, j < c.cacheEntries.length →
      (c.cacheEntries.getD j default).sector ≠ CACHE_FREE →
      (c.cacheEntries.getD j default).sector ≠ x.sector := by
    intro j hj hf heq
    have hcj := h3 j hj hf
    have : hitTest (c.cacheEntries.getD j default) t = true := by
      refine hitTest_of_covers c t _ h1 h2 ht ?_ hcj.2.2
      rw [heq, hxs]
    rw [hmiss _ (getD_mem hj)] at this
    exact absurd this (by simp)
  have key : ∀ j, (c.cacheEntries.set v x).getD j default = c.cacheEntries.getD j default ∨
      ((c.cacheEntries.set v x).getD j default = x ∧ j = v) := by
    intro j
    by_cases hij : v = j
    · subst hij
      by_cases hi : v < c.cacheEntries.length
      · exact Or.inr ⟨getD_set_self hi, rfl⟩
      · rw [List.set_eq_of_length_le (by omega)]
        exact Or.inl rfl
    · rw [getD_set_ne hij]
      exact Or.inl rfl
  refine ⟨h1, h2, ?_, ?_⟩
  · intro i hi hf
    have hi' : i < c.cacheEntries.length := by simpa using hi
    have hf' : ((c.cacheEntries.set v x).getD i default).sector ≠ CACHE_FREE := hf
    show c.sectorsPerPage ∣ ((c.cacheEntries.set v x).getD i default).sector ∧
      ((c.cacheEntries.set v x).getD i default).sector < c.endOfPartition ∧
      ((c.cacheEntries.set v x).getD i default).count =
        min c.sectorsPerPage
          (c.endOfPartition - ((c.cacheEntries.set v x).getD i default).sector)
    rcases key i with h | ⟨h, rfl⟩
    · rw [h]
      rw [h] at hf'
      exact h3 i hi' hf'
    · rw [h]
      exact hxok
  · intro i j hi hj hij hfi hfj
    have hi' : i < c.cacheEntries.length := by simpa using hi
    have hj' : j < c.cacheEntries.length := by simpa using hj
    have hfi' : ((c.cacheEntries.set v x).getD i default).sector ≠ CACHE_FREE := hfi
    have hfj' : ((c.cacheEntries.set v x).getD j default).sector ≠ CACHE_FREE := hfj
    show ((c.cacheEntries.set v x).getD i default).sector ≠
      ((c.cacheEntries.set v x).getD j default).sector
    rcases key i with hki | ⟨hki, rfl⟩
    · rcases key j with hkj | ⟨hkj, rfl⟩
      · rw [hki, hkj]
        rw [hki] at hfi'
        rw [hkj] at hfj'
        exact h4 i j hi' hj' hij hfi' hfj'
      · rw [hki, hkj]
        rw [hki] at hfi'
        exact hother i hi' hfi'
    · rcases key j with hkj | ⟨hkj, hjv⟩
      · rw [hki, hkj]
        rw [hkj] at hfj'
        exact fun heq => hother j hj' hfj' heq.symm
      · exact absurd (hjv.trans rfl) (by omega)

/-- `getPage_fill` keeps the cache configuration. -/
theorem getPage_fill_config (disc : DISC_INTERFACE) (c : NTFS_CACHE)
    (v t n : Nat) (w : Bool) (tr : List IOEvent) :
    (getPage_fill disc c v t n w tr).2.1.endOfPartition = c.endOfPartition ∧
    (getPage_fill disc c v t n w tr).2.1.sectorsPerPage = c.sectorsPerPage ∧
    (getPage_fill disc c v t n w tr).2.1.cacheEntries.length = c.cacheEntries.length := by
  unfold getPage_fill
  simp only []
  split
  · exact ⟨rfl, rfl, by simp [touchEntry]⟩
  · split
    · exact ⟨rfl, rfl, by simp [touchEntry]⟩
    · exact ⟨rfl, rfl, by simp⟩

/-- `_NTFS_cache_getPage` keeps the cache configuration. -/
theorem getPage_config (disc : DISC_INTERFACE) (c : NTFS_CACHE)
    (t n : Nat) (w : Bool) :
    (_NTFS_cache_getPage disc c t n w).2.1.endOfPartition = c.endOfPartition ∧
    (_NTFS_cache_getPage disc c t n w).2.1.sectorsPerPage = c.sectorsPerPage ∧
    (_NTFS_cache_getPage disc c t n w).2.1.cacheEntries.length = c.cacheEntries.length := by
  unfold _NTFS_cache_getPage
  rcases hscan : getPage_scan c t with ⟨h, ff, v⟩
  rcases h with _ | i
  · simp only []
    split
    · split
      · have h := getPage_fill_config disc (clearDirty c v) v t n w
          [wbEvent (c.cacheEntries.getD v default)]
        refine ⟨h.1, h.2.1, ?_⟩
        rw [h.2.2]
        simp [clearDirty]
      · exact ⟨rfl, rfl, rfl⟩
    · exact getPage_fill_config disc c v t n w []
  · simp only []
    exact ⟨rfl, rfl, by simp [touchEntry]⟩

/-- `getPage_fill` preserves the invariant for an in-partition target that
misses every slot. -/
theorem CacheInv_getPage_fill (disc : DISC_INTERFACE) (c : NTFS_CACHE)
    (v t n : Nat) (w : Bool) (tr : List IOEvent)
    (hinv : CacheInv c) (ht : t < c.endOfPartition)
    (hmiss : ∀ e ∈ c.cacheEntries, hitTest e t = false) :
    CacheInv (getPage_fill disc c v t n w tr).2.1 := by
  unfold getPage_fill
  simp only []
  split
  · exact CacheInv_touchEntry _ _ (CacheInv_set_rebase c v t _ hinv ht hmiss rfl rfl)
  · split
    · exact CacheInv_touchEntry _ _ (CacheInv_set_rebase c v t _ hinv ht hmiss rfl rfl)
    · exact CacheInv_set_free c v _ rfl hinv

/-- `_NTFS_cache_getPage` preserves the invariant for in-partition targets. -/
theorem CacheInv_getPage (disc : DISC_INTERFACE) (c : NTFS_CACHE)
    (t n : Nat) (w : Bool) (hinv : CacheInv c) (ht : t < c.endOfPartition) :
    CacheInv (_NTFS_cache_getPage disc c t n w).2.1 := by
  unfold _NTFS_cache_getPage
  rcases hscan : getPage_scan c t with ⟨h, ff, v⟩
  rcases h with _ | i
  · simp only []
    have hmiss : ∀ e ∈ c.cacheEntries, hitTest e t = false :=
      cacheScan_none_no_hit t c.cacheEntries 0 false 0 (2^32 - 1)
        (by rw [show cacheScan t c.cacheEntries 0 false 0 (2^32 - 1) = (none, ff, v)
          from hscan])
    have hmiss' : ∀ e ∈ (clearDirty c v).cacheEntries, hitTest e t = false := by
      intro e he
      rcases List.mem_or_eq_of_mem_set he with he' | heq
      · exact hmiss e he'
      · have hkey : hitTest e t = hitTest (c.cacheEntries.getD v default) t := by
          rw [heq]
          rfl
        rw [hkey]
        by_cases hv : v < c.cacheEntries.length
        · exact hmiss _ (getD_mem hv)
        · rw [getD_out_of_range (by omega)]
          have h1 : (default : NTFS_CACHE_ENTRY).sector = 0 := rfl
          have h2 : (default : NTFS_CACHE_ENTRY).count = 0 := rfl
          unfold hitTest
          rw [h1, h2]
          simp
    split
    · split
      · exact CacheInv_getPage_fill disc (clearDirty c v) v t n w _
          (CacheInv_clearDirty c v hinv) ht hmiss'
      · exact hinv
    · exact CacheInv_getPage_fill disc c v t n w [] hinv ht hmiss
  · simp only []
    exact CacheInv_touchEntry c i hinv


/-- Any index returned by `findPage_go` either came in through the
accumulator or points at a slot that passed the intersection test. -/
theorem findPage_go_rec (sector count : Nat) (R : Nat → Prop) :
    ∀ (es : List NTFS_CACHE_ENTRY) (i : Nat) (best : Option Nat) (lowest : Nat),
    (∀ j, best = some j → R j) →
    (∀ k, k < es.length →
      ((es.getD k default).sector ≠ CACHE_FREE ∧
       (if sector > (es.getD k default).sector
        then sector - (es.getD k default).sector < (es.getD k default).count
        else (es.getD k default).sector - sector < count)) → R (i + k)) →
    ∀ j, findPage_go sector count es i best lowest = some j → R j := by
  intro es
  induction es with
  | nil =>
    intro i best lowest hbest hes j hj
    exact hbest j hj
  | cons e rest ih =>
    intro i best lowest hbest hes j hj
    unfold findPage_go at hj
    have hes' : ∀ k, k < rest.length →
        ((rest.getD k default).sector ≠ CACHE_FREE ∧
         (if sector > (rest.getD k default).sector
          then sector - (rest.getD k default).sector < (rest.getD k default).count
          else (rest.getD k default).sector - sector < count)) → R (i + 1 + k) := by
      intro k hk hcond
      have := hes (k + 1) (by simpa using hk) (by simpa using hcond)
      rwa [show i + (k + 1) = i + 1 + k by omega] at this
    by_cases hef : e.sector ≠ CACHE_FREE
    · rw [if_pos hef] at hj
      by_cases hguard : ((if sector > e.sector then decide (sector - e.sector < e.count)
          else decide (e.sector - sector < count)) && decide (e.sector < lowest)) = true
      · rw [if_pos hguard] at hj
        refine ih (i + 1) (some i) e.sector ?_ hes' j hj
        intro j' hj'
        cases hj'
        have hint : if sector > e.sector then sector - e.sector < e.count
            else e.sector - sector < count := by
          rcases Bool.and_eq_true_iff.mp hguard with ⟨hb, _⟩
          split at hb <;> split
          · simpa using hb
          · omega
          · omega
          · simpa using hb
        have := hes 0 (by simp) (by simpa using ⟨hef, hint⟩)
        simpa using this
      · rw [if_neg hguard] at hj
        exact ih (i + 1) best lowest hbest hes' j hj
    · rw [if_neg hef] at hj
      exact ih (i + 1) best lowest hbest hes' j hj

/-- `_NTFS_cache_findPage` returns the index of a non-FREE slot that
passes the intersection test. -/
theorem findPage_spec (c : NTFS_CACHE) (sector count j : Nat)
    (hj : _NTFS_cache_findPage c sector count = some j) :
    j < c.cacheEntries.length ∧
    (c.cacheEntries.getD j default).sector ≠ CACHE_FREE ∧
    (if sector > (c.cacheEntries.getD j default).sector
     then sector - (c.cacheEntries.getD j default).sector <
       (c.cacheEntries.getD j default).count
     else (c.cacheEntries.getD j default).sector - sector < count) := by
  refine findPage_go_rec sector count
    (fun j => j < c.cacheEntries.length ∧
      (c.cacheEntries.getD j default).sector ≠ CACHE_FREE ∧
      (if sector > (c.cacheEntries.getD j default).sector
       then sector - (c.cacheEntries.getD j default).sector <
         (c.cacheEntries.getD j default).count
       else (c.cacheEntries.getD j default).sector - sector < count))
    c.cacheEntries 0 none CACHE_FREE (fun j' hj' => by cases hj') ?_ j hj
  intro k hk hcond
  rw [show (0 : Nat) + k = k by omega]
  exact ⟨by omega, hcond.1, hcond.2⟩

/-- The bypass transfer never exceeds the outstanding sector count. -/
theorem bypassAmount_le (c : NTFS_CACHE) (sector numSectors ptr : Nat) :
    bypassAmount c sector numSectors ptr ≤ numSectors := by
  unfold bypassAmount
  split
  · rcases hfp : _NTFS_cache_findPage c sector numSectors with _ | j
    · exact Nat.div_mul_le_self numSectors c.sectorsPerPage
    · have hspec := findPage_spec c sector numSectors j hfp
      simp only []
      split
      · next hgt =>
        rw [if_neg (by omega)] at hspec
        omega
      · omega
  · omega

/-- `readLoop` preserves the invariant for in-partition transfers. -/
theorem CacheInv_readLoop (disc : DISC_INTERFACE) :
    ∀ (fuel : Nat) (c : NTFS_CACHE) (sector numSectors dest : Nat) (tr : List IOEvent)
      (b : Bool) (c' : NTFS_CACHE) (tr' : List IOEvent),
    CacheInv c → sector + numSectors ≤ c.endOfPartition →
    readLoop disc fuel c sector numSectors dest tr = some (b, c', tr') →
    CacheInv c' := by
  intro fuel
  induction fuel with
  | zero =>
    intro c sector numSectors dest tr b c' tr' hinv hsum h
    unfold readLoop at h
    split at h
    · cases h
      exact hinv
    · cases h
  | succ fuel ih =>
    intro c sector numSectors dest tr b c' tr' hinv hsum h
    unfold readLoop at h
    by_cases hz : numSectors = 0
    · rw [if_pos hz] at h
      cases h
      exact hinv
    · rw [if_neg hz] at h
      simp only [] at h
      have hble := bypassAmount_le c sector numSectors dest
      by_cases hbp : bypassAmount c sector numSectors dest > 0
      · rw [if_pos hbp] at h
        split at h
        · exact ih c _ _ _ _ b c' tr' hinv (by omega) h
        · cases h
          exact hinv
      · rw [if_neg hbp] at h
        rcases hgp : _NTFS_cache_getPage disc c sector numSectors false with ⟨r, c1, tr1⟩
        rw [hgp] at h
        have hcfg := getPage_config disc c sector numSectors false
        rw [hgp] at hcfg
        have hinv1 : CacheInv c1 := by
          have := CacheInv_getPage disc c sector numSectors false hinv (by omega)
          rwa [hgp] at this
        rcases r with _ | i
        · simp only [] at h
          cases h
          exact hinv1
        · simp only [] at h
          have hstr : (if usub32 (c1.cacheEntries.getD i default).count
              (sector - (c1.cacheEntries.getD i default).sector) > numSectors
              then numSectors
              else usub32 (c1.cacheEntries.getD i default).count
                (sector - (c1.cacheEntries.getD i default).sector)) ≤ numSectors := by
            split <;> omega
        -- the recursive call's partition bound transfers along the config
          refine ih c1 _ _ _ _ b c' tr' hinv1 ?_ h
          have hE1 : c1.endOfPartition = c.endOfPartition := hcfg.1
          omega

/-- `writeLoop` preserves the invariant for in-partition transfers. -/
theorem CacheInv_writeLoop (disc : DISC_INTERFACE) (sd : Nat → Nat) :
    ∀ (fuel : Nat) (c : NTFS_CACHE) (sector numSectors src : Nat) (tr : List IOEvent)
      (b : Bool) (c' : NTFS_CACHE) (tr' : List IOEvent),
    CacheInv c → sector + numSectors ≤ c.endOfPartition →
    writeLoop disc sd fuel c sector numSectors src tr = some (b, c', tr') →
    CacheInv c' := by
  intro fuel
  induction fuel with
  | zero =>
    intro c sector numSectors src tr b c' tr' hinv hsum h
    unfold writeLoop at h
    split at h
    · cases h
      exact hinv
    · cases h
  | succ fuel ih =>
    intro c sector numSectors src tr b c' tr' hinv hsum h
    unfold writeLoop at h
    by_cases hz : numSectors = 0
    · rw [if_pos hz] at h
      cases h
      exact hinv
    · rw [if_neg hz] at h
      simp only [] at h
      have hble := bypassAmount_le c sector numSectors src
      by_cases hbp : bypassAmount c sector numSectors src > 0
      · rw [if_pos hbp] at h
        split at h
        · exact ih c _ _ _ _ b c' tr' hinv (by omega) h
        · cases h
          exact hinv
      · rw [if_neg hbp] at h
        rcases hgp : _NTFS_cache_getPage disc c sector numSectors true with ⟨r, c1, tr1⟩
        rw [hgp] at h
        have hcfg := getPage_config disc c sector numSectors true
        rw [hgp] at hcfg
        have hinv1 : CacheInv c1 := by
          have := CacheInv_getPage disc c sector numSectors true hinv (by omega)
          rwa [hgp] at this
        rcases r with _ | i
        · simp only [] at h
          cases h
          exact hinv1
        · simp only [] at h
          have hstw : (if usub32 (c1.cacheEntries.getD i default).count
              (sector - (c1.cacheEntries.getD i default).sector) > numSectors
              then numSectors
              else usub32 (c1.cacheEntries.getD i default).count
                (sector - (c1.cacheEntries.getD i default).sector)) ≤ numSectors := by
            split <;> omega
          refine ih _ _ _ _ _ b c' tr' ?_ ?_ h
          · exact CacheInv_set_same c1 i _ c1.accessCounter rfl rfl hinv1
          · have hE1 : c1.endOfPartition = c.endOfPartition := hcfg.1
            show sector + _ + (numSectors - _) ≤ c1.endOfPartition
            omega

/-- The partial-sector operations preserve the invariant for in-partition
targets. -/
theorem CacheInv_readPartial (disc : DISC_INTERFACE) (c : NTFS_CACHE)
    (sector offset size : Nat) (hinv : CacheInv c) (ht : sector < c.endOfPartition) :
    CacheInv (_NTFS_cache_readPartialSector disc c sector offset size).2.1 := by
  unfold _NTFS_cache_readPartialSector
  split
  · exact hinv
  · rcases hgp : _NTFS_cache_getPage disc c sector 1 false with ⟨r, c1, tr1⟩
    have hinv1 : CacheInv c1 := by
      have := CacheInv_getPage disc c sector 1 false hinv ht
      rwa [hgp] at this
    rcases r with _ | i <;> simp only [] <;> exact hinv1

theorem CacheInv_writePartial (disc : DISC_INTERFACE) (c : NTFS_CACHE)
    (sector offset size : Nat) (sd : Nat → Nat)
    (hinv : CacheInv c) (ht : sector < c.endOfPartition) :
    CacheInv (_NTFS_cache_writePartialSector disc c sector offset size sd).2.1 := by
  unfold _NTFS_cache_writePartialSector
  split
  · exact hinv
  · rcases hgp : _NTFS_cache_getPage disc c sector 1 false with ⟨r, c1, tr1⟩
    have hinv1 : CacheInv c1 := by
      have := CacheInv_getPage disc c sector 1 false hinv ht
      rwa [hgp] at this
    rcases r with _ | i
    · exact hinv1
    · simp only []
      exact CacheInv_set_same c1 i _ c1.accessCounter rfl rfl hinv1

theorem CacheInv_eraseWritePartial (disc : DISC_INTERFACE) (c : NTFS_CACHE)
    (sector offset size : Nat) (sd : Nat → Nat)
    (hinv : CacheInv c) (ht : sector < c.endOfPartition) :
    CacheInv (_NTFS_cache_eraseWritePartialSector disc c sector offset size sd).2.1 := by
  unfold _NTFS_cache_eraseWritePartialSector
  split
  · exact hinv
  · rcases hgp : _NTFS_cache_getPage disc c sector 1 true with ⟨r, c1, tr1⟩
    have hinv1 : CacheInv c1 := by
      have := CacheInv_getPage disc c sector 1 true hinv ht
      rwa [hgp] at this
    rcases r with _ | i
    · exact hinv1
    · simp only []
      exact CacheInv_set_same c1 i _ c1.accessCounter rfl rfl hinv1

/-- `flushLoop` rewrites dirty bits only. -/
theorem flushLoop_fields (disc : DISC_INTERFACE) (es : List NTFS_CACHE_ENTRY) :
    (flushLoop disc es).2.1.length = es.length ∧
    ∀ j, ((flushLoop disc es).2.1.getD j default).sector = (es.getD j default).sector ∧
         ((flushLoop disc es).2.1.getD j default).count = (es.getD j default).count := by
  induction es with
  | nil => exact ⟨rfl, fun j => ⟨rfl, rfl⟩⟩
  | cons e rest ih =>
    unfold flushLoop
    split
    · split
      · rcases hfl : flushLoop disc rest with ⟨b, rest', tr⟩
        rw [hfl] at ih
        simp only [] at ih ⊢
        refine ⟨by simpa using ih.1, ?_⟩
        intro j
        cases j with
        | zero => exact ⟨rfl, rfl⟩
        | succ j' =>
          simp only [List.getD_cons_succ]
          exact ih.2 j'
      · exact ⟨rfl, fun j => ⟨rfl, rfl⟩⟩
    · rcases hfl : flushLoop disc rest with ⟨b, rest', tr⟩
      rw [hfl] at ih
      simp only [] at ih ⊢
      refine ⟨by simpa using ih.1, ?_⟩
      intro j
      cases j with
      | zero => exact ⟨rfl, rfl⟩
      | succ j' =>
        simp only [List.getD_cons_succ]
        exact ih.2 j'

/-- `_NTFS_cache_flush` preserves the invariant. -/
theorem CacheInv_flush (disc : DISC_INTERFACE) (c : NTFS_CACHE) (hinv : CacheInv c) :
    CacheInv (_NTFS_cache_flush disc c).2.1 := by
  unfold _NTFS_cache_flush
  rcases hfl : flushLoop disc c.cacheEntries with ⟨b, es', tr⟩
  have hf := flushLoop_fields disc c.cacheEntries
  rw [hfl] at hf
  simp only [] at hf ⊢
  exact CacheInv_of_fields c _ rfl rfl hf.1 (fun j => (hf.2 j).1) (fun j => (hf.2 j).2) hinv

/-- A cache whose every slot is FREE satisfies the invariant as soon as the
configuration fields are in range. -/
theorem CacheInv_all_free (c : NTFS_CACHE) (hS : 0 < c.sectorsPerPage)
    (hE : c.endOfPartition < 2^32)
    (hfree : ∀ i, i < c.cacheEntries.length →
      (c.cacheEntries.getD i default).sector = CACHE_FREE) :
    CacheInv c := by
  refine ⟨hS, hE, ?_, ?_⟩
  · intro i hi hf
    exact absurd (hfree i hi) hf
  · intro i j hi hj hij hfi hfj
    exact absurd (hfree i hi) hfi

/-- `_NTFS_cache_invalidate` yields an all-FREE cache, trivially invariant. -/
theorem CacheInv_invalidate (disc : DISC_INTERFACE) (c : NTFS_CACHE) (hinv : CacheInv c) :
    CacheInv (_NTFS_cache_invalidate disc c).1 := by
  obtain ⟨h1, h2, _, _⟩ := hinv
  unfold _NTFS_cache_invalidate
  rcases hfl : _NTFS_cache_flush disc c with ⟨b, c1, tr⟩
  have hcfg : c1.sectorsPerPage = c.sectorsPerPage ∧ c1.endOfPartition = c.endOfPartition := by
    have hx : (_NTFS_cache_flush disc c).2.1 = c1 := by rw [hfl]
    rw [← hx]
    unfold _NTFS_cache_flush
    exact ⟨rfl, rfl⟩
  simp only []
  refine CacheInv_all_free _ ?_ ?_ ?_
  · show 0 < c1.sectorsPerPage
    rw [hcfg.1]
    omega
  · show c1.endOfPartition < 2^32
    rw [hcfg.2]
    omega
  · intro i hi
    simp only [List.length_map] at hi
    simp only [List.getD_eq_getElem?_getD, List.getElem?_map,
      List.getElem?_eq_getElem hi, Option.map_some', Option.getD_some]

/-- A freshly constructed cache satisfies the invariant. -/
theorem CacheInv_constructor (pc spp E B : Nat) (a1 a2 : Bool) (ctr : Nat)
    (c : NTFS_CACHE) (hE : E < 2^32)
    (hc : _NTFS_cache_constructor pc spp E B a1 a2 ctr = some c) :
    CacheInv c := by
  unfold _NTFS_cache_constructor at hc
  by_cases h : pc = 0 ∨ spp = 0
  · simp [h] at hc
  · cases a1 <;> cases a2 <;> simp [h] at hc
    subst hc
    refine CacheInv_all_free _ ?_ hE ?_
    · simp only []
      split <;> (try split) <;> omega
    · intro i hi
      simp only [List.length_replicate] at hi
      simp only [List.getD_eq_getElem?_getD, List.getElem?_replicate, if_pos hi,
        Option.getD_some]

/-- `readLoop` never changes the partition bound. -/
theorem readLoop_endOfPartition (disc : DISC_INTERFACE) :
    ∀ (fuel : Nat) (c : NTFS_CACHE) (sector numSectors dest : Nat) (tr : List IOEvent)
      (b : Bool) (c' : NTFS_CACHE) (tr' : List IOEvent),
    readLoop disc fuel c sector numSectors dest tr = some (b, c', tr') →
    c'.endOfPartition = c.endOfPartition := by
  intro fuel
  induction fuel with
  | zero =>
    intro c sector numSectors dest tr b c' tr' h
    unfold readLoop at h
    split at h
    · cases h
      rfl
    · cases h
  | succ fuel ih =>
    intro c sector numSectors dest tr b c' tr' h
    unfold readLoop at h
    by_cases hz : numSectors = 0
    · rw [if_pos hz] at h
      cases h
      rfl
    · rw [if_neg hz] at h
      simp only [] at h
      by_cases hbp : bypassAmount c sector numSectors dest > 0
      · rw [if_pos hbp] at h
        split at h
        · exact ih c _ _ _ _ b c' tr' h
        · cases h
          rfl
      · rw [if_neg hbp] at h
        rcases hgp : _NTFS_cache_getPage disc c sector numSectors false with ⟨r, c1, tr1⟩
        rw [hgp] at h
        have hcfg := getPage_config disc c sector numSectors false
        rw [hgp] at hcfg
        rcases r with _ | i
        · simp only [] at h
          cases h
          exact hcfg.1
        · simp only [] at h
          exact (ih c1 _ _ _ _ b c' tr' h).trans hcfg.1

/-- `writeLoop` never changes the partition bound. -/
theorem writeLoop_endOfPartition (disc : DISC_INTERFACE) (sd : Nat → Nat) :
    ∀ (fuel : Nat) (c : NTFS_CACHE) (sector numSectors src : Nat) (tr : List IOEvent)
      (b : Bool) (c' : NTFS_CACHE) (tr' : List IOEvent),
    writeLoop disc sd fuel c sector numSectors src tr = some (b, c', tr') →
    c'.endOfPartition = c.endOfPartition := by
  intro fuel
  induction fuel with
  | zero =>
    intro c sector numSectors src tr b c' tr' h
    unfold writeLoop at h
    split at h
    · cases h
      rfl
    · cases h
  | succ fuel ih =>
    intro c sector numSectors src tr b c' tr' h
    unfold writeLoop at h
    by_cases hz : numSectors = 0
    · rw [if_pos hz] at h
      cases h
      rfl
    · rw [if_neg hz] at h
      simp only [] at h
      by_cases hbp : bypassAmount c sector numSectors src > 0
      · rw [if_pos hbp] at h
        split at h
        · exact ih c _ _ _ _ b c' tr' h
        · cases h
          rfl
      · rw [if_neg hbp] at h
        rcases hgp : _NTFS_cache_getPage disc c sector numSectors true with ⟨r, c1, tr1⟩
        rw [hgp] at h
        have hcfg := getPage_config disc c sector numSectors true
        rw [hgp] at hcfg
        rcases r with _ | i
        · simp only [] at h
          cases h
          exact hcfg.1
        · simp only [] at h
          exact (ih _ _ _ _ _ b c' tr' h).trans hcfg.1

/-- The partial-sector operations never change the partition bound. -/
theorem readPartial_endOfPartition (disc : DISC_INTERFACE) (c : NTFS_CACHE)
    (sector offset size : Nat) :
    (_NTFS_cache_readPartialSector disc c sector offset size).2.1.endOfPartition =
      c.endOfPartition := by
  unfold _NTFS_cache_readPartialSector
  split
  · rfl
  · rcases hgp : _NTFS_cache_getPage disc c sector 1 false with ⟨r, c1, tr1⟩
    have hcfg := getPage_config disc c sector 1 false
    rw [hgp] at hcfg
    rcases r with _ | i <;> simp only [] <;> exact hcfg.1

theorem writePartial_endOfPartition (disc : DISC_INTERFACE) (c : NTFS_CACHE)
    (sector offset size : Nat) (sd : Nat → Nat) :
    (_NTFS_cache_writePartialSector disc c sector offset size sd).2.1.endOfPartition =
      c.endOfPartition := by
  unfold _NTFS_cache_writePartialSector
  split
  · rfl
  · rcases hgp : _NTFS_cache_getPage disc c sector 1 false with ⟨r, c1, tr1⟩
    have hcfg := getPage_config disc c sector 1 false
    rw [hgp] at hcfg
    rcases r with _ | i <;> simp only [] <;> exact hcfg.1

theorem eraseWritePartial_endOfPartition (disc : DISC_INTERFACE) (c : NTFS_CACHE)
    (sector offset size : Nat) (sd : Nat → Nat) :
    (_NTFS_cache_eraseWritePartialSector disc c sector offset size sd).2.1.endOfPartition =
      c.endOfPartition := by
  unfold _NTFS_cache_eraseWritePartialSector
  split
  · rfl
  · rcases hgp : _NTFS_cache_getPage disc c sector 1 true with ⟨r, c1, tr1⟩
    have hcfg := getPage_config disc c sector 1 true
    rw [hgp] at hcfg
    rcases r with _ | i <;> simp only [] <;> exact hcfg.1

/-- The little-endian operations never change the partition bound. -/
theorem readLE_endOfPartition (disc : DISC_INTERFACE) (c : NTFS_CACHE)
    (sector offset numBytes : Nat) :
    (_NTFS_cache_readLittleEndianValue disc c sector offset numBytes).2.1.endOfPartition =
      c.endOfPartition := by
  unfold _NTFS_cache_readLittleEndianValue
  rcases hrp : _NTFS_cache_readPartialSector disc c sector offset numBytes with ⟨b, c1, tr⟩
  have h1 := readPartial_endOfPartition disc c sector offset numBytes
  rw [hrp] at h1
  rcases b <;> exact h1

theorem writeLE_endOfPartition (disc : DISC_INTERFACE) (c : NTFS_CACHE)
    (value sector offset size : Nat) :
    (_NTFS_cache_writeLittleEndianValue disc c value sector offset size).2.1.endOfPartition =
      c.endOfPartition := by
  unfold _NTFS_cache_writeLittleEndianValue
  split
  · exact writePartial_endOfPartition disc c sector offset size (leByte value)
  · rfl

/-- `flush` and `invalidate` never change the partition bound. -/
theorem flush_endOfPartition (disc : DISC_INTERFACE) (c : NTFS_CACHE) :
    (_NTFS_cache_flush disc c).2.1.endOfPartition = c.endOfPartition := by
  unfold _NTFS_cache_flush
  rcases hfl : flushLoop disc c.cacheEntries with ⟨b, es, tr⟩
  rfl

theorem invalidate_endOfPartition (disc : DISC_INTERFACE) (c : NTFS_CACHE) :
    (_NTFS_cache_invalidate disc c).1.endOfPartition = c.endOfPartition := by
  unfold _NTFS_cache_invalidate
  rcases hfl : _NTFS_cache_flush disc c with ⟨b, c1, tr⟩
  have h1 := flush_endOfPartition disc c
  rw [hfl] at h1
  exact h1

/-- The little-endian operations preserve the invariant for in-partition
targets. -/
theorem CacheInv_readLE (disc : DISC_INTERFACE) (c : NTFS_CACHE)
    (sector offset numBytes : Nat) (hinv : CacheInv c) (ht : sector < c.endOfPartition) :
    CacheInv (_NTFS_cache_readLittleEndianValue disc c sector offset numBytes).2.1 := by
  unfold _NTFS_cache_readLittleEndianValue
  rcases hrp : _NTFS_cache_readPartialSector disc c sector offset numBytes with ⟨b, c1, tr⟩
  have h1 := CacheInv_readPartial disc c sector offset numBytes hinv ht
  rw [hrp] at h1
  rcases b <;> exact h1

theorem CacheInv_writeLE (disc : DISC_INTERFACE) (c : NTFS_CACHE)
    (value sector offset size : Nat) (hinv : CacheInv c) (ht : sector < c.endOfPartition) :
    CacheInv (_NTFS_cache_writeLittleEndianValue disc c value sector offset size).2.1 := by
  unfold _NTFS_cache_writeLittleEndianValue
  split
  · exact CacheInv_writePartial disc c sector offset size (leByte value) hinv ht
  · exact hinv

/-- No access-layer operation changes the partition bound. -/
theorem runOp_endOfPartition (disc : DISC_INTERFACE) (c : NTFS_CACHE) (op : CacheOp) :
    (runOp disc c op).endOfPartition = c.endOfPartition := by
  cases op with
  | readS s n d =>
    show (match _NTFS_cache_readSectors disc c s n d with
      | some (_, c', _) => c'
      | none => c).endOfPartition = c.endOfPartition
    rcases hr : _NTFS_cache_readSectors disc c s n d with _ | ⟨b, c2, tr⟩
    · rfl
    · exact readLoop_endOfPartition disc n c s n d [] b c2 tr hr
  | writeS s n src sd =>
    show (match _NTFS_cache_writeSectors disc c s n src sd with
      | some (_, c', _) => c'
      | none => c).endOfPartition = c.endOfPartition
    rcases hr : _NTFS_cache_writeSectors disc c s n src sd with _ | ⟨b, c2, tr⟩
    · rfl
    · exact writeLoop_endOfPartition disc sd n c s n src [] b c2 tr hr
  | readP s o z => exact readPartial_endOfPartition disc c s o z
  | writeP s o z sd => exact writePartial_endOfPartition disc c s o z sd
  | eraseWriteP s o z sd => exact eraseWritePartial_endOfPartition disc c s o z sd
  | readLE s o n => exact readLE_endOfPartition disc c s o n
  | writeLE v s o z => exact writeLE_endOfPartition disc c v s o z
  | flushOp => exact flush_endOfPartition disc c
  | invalidateOp => exact invalidate_endOfPartition disc c

/-- One in-partition access-layer operation preserves the invariant. -/
theorem CacheInv_runOp (disc : DISC_INTERFACE) (c : NTFS_CACHE) (op : CacheOp)
    (hinv : CacheInv c) (hop : op.inPartition c.endOfPartition = true) :
    CacheInv (runOp disc c op) := by
  cases op with
  | readS s n d =>
    have hsn : s + n ≤ c.endOfPartition := by
      simpa [CacheOp.inPartition] using hop
    show CacheInv (match _NTFS_cache_readSectors disc c s n d with
      | some (_, c', _) => c'
      | none => c)
    rcases hr : _NTFS_cache_readSectors disc c s n d with _ | ⟨b, c2, tr⟩
    · exact hinv
    · exact CacheInv_readLoop disc n c s n d [] b c2 tr hinv hsn hr
  | writeS s n src sd =>
    have hsn : s + n ≤ c.endOfPartition := by
      simpa [CacheOp.inPartition] using hop
    show CacheInv (match _NTFS_cache_writeSectors disc c s n src sd with
      | some (_, c', _) => c'
      | none => c)
    rcases hr : _NTFS_cache_writeSectors disc c s n src sd with _ | ⟨b, c2, tr⟩
    · exact hinv
    · exact CacheInv_writeLoop disc sd n c s n src [] b c2 tr hinv hsn hr
  | readP s o z =>
    exact CacheInv_readPartial disc c s o z hinv (by simpa [CacheOp.inPartition] using hop)
  | writeP s o z sd =>
    exact CacheInv_writePartial disc c s o z sd hinv (by simpa [CacheOp.inPartition] using hop)
  | eraseWriteP s o z sd =>
    exact CacheInv_eraseWritePartial disc c s o z sd hinv
      (by simpa [CacheOp.inPartition] using hop)
  | readLE s o n =>
    exact CacheInv_readLE disc c s o n hinv (by simpa [CacheOp.inPartition] using hop)
  | writeLE v s o z =>
    exact CacheInv_writeLE disc c v s o z hinv (by simpa [CacheOp.inPartition] using hop)
  | flushOp => exact CacheInv_flush disc c hinv
  | invalidateOp => exact CacheInv_invalidate disc c hinv

/-- A sequence of in-partition access-layer operations preserves the
invariant. -/
theorem CacheInv_runOps (disc : DISC_INTERFACE) (ops : List CacheOp) :
    ∀ c : NTFS_CACHE, CacheInv c →
    (∀ op ∈ ops, op.inPartition c.endOfPartition = true) →
    CacheInv (runOps disc c ops) := by
  induction ops with
  | nil =>
    intro c hinv _
    exact hinv
  | cons op rest ih =>
    intro c hinv hops
    show CacheInv (runOps disc (runOp disc c op) rest)
    refine ih (runOp disc c op) ?_ ?_
    · exact CacheInv_runOp disc c op hinv (hops op (by simp))
    · intro o ho
      rw [runOp_endOfPartition]
      exact hops o (by simp [ho])

/-- The invariant yields the spec's range-disjointness: distinct non-FREE
slots are page-aligned with distinct bases and at most one page of sectors,
so their covered ranges cannot overlap. -/
theorem CacheInv_disjoint (c : NTFS_CACHE) (hinv : CacheInv c) :
    ∀ i j, i < c.cacheEntries.length → j < c.cacheEntries.length → i ≠ j →
    (c.cacheEntries.getD i default).sector ≠ CACHE_FREE →
    (c.cacheEntries.getD j default).sector ≠ CACHE_FREE →
    (c.cacheEntries.getD i default).sector + (c.cacheEntries.getD i default).count ≤
      (c.cacheEntries.getD j default).sector ∨
    (c.cacheEntries.getD j default).sector + (c.cacheEntries.getD j default).count ≤
      (c.cacheEntries.getD i default).sector := by
  obtain ⟨hS, hE, hslot, hdist⟩ := hinv
  intro i j hi hj hij hfi hfj
  obtain ⟨hdvdI, hltI, hcntI⟩ := hslot i hi hfi
  obtain ⟨hdvdJ, hltJ, hcntJ⟩ := hslot j hj hfj
  have hne := hdist i j hi hj hij hfi hfj
  obtain ⟨a, ha⟩ := hdvdI
  obtain ⟨b, hb⟩ := hdvdJ
  have hci : (c.cacheEntries.getD i default).count ≤ c.sectorsPerPage := by
    rw [hcntI]
    omega
  have hcj : (c.cacheEntries.getD j default).count ≤ c.sectorsPerPage := by
    rw [hcntJ]
    omega
  rcases Nat.lt_or_ge (c.cacheEntries.getD i default).sector
      (c.cacheEntries.getD j default).sector with hlt | hge
  · left
    have hab : a < b := by
      rw [ha, hb] at hlt
      exact Nat.lt_of_mul_lt_mul_left hlt
    have hstep : c.sectorsPerPage * (a + 1) ≤ c.sectorsPerPage * b :=
      Nat.mul_le_mul_left _ hab
    rw [Nat.mul_succ] at hstep
    rw [ha, hb]
    omega
  · right
    have hlt' : (c.cacheEntries.getD j default).sector <
        (c.cacheEntries.getD i default).sector := by
      omega
    have hab : b < a := by
      rw [ha, hb] at hlt'
      exact Nat.lt_of_mul_lt_mul_left hlt'
    have hstep : c.sectorsPerPage * (b + 1) ≤ c.sectorsPerPage * a :=
      Nat.mul_le_mul_left _ hab
    rw [Nat.mul_succ] at hstep
    rw [ha, hb]
    omega

/-- The constructor copies `endOfPartition` verbatim. -/
theorem constructor_endOfPartition (pc spp E B : Nat) (a1 a2 : Bool) (ctr : Nat)
    (c : NTFS_CACHE) (hc : _NTFS_cache_constructor pc spp E B a1 a2 ctr = some c) :
    c.endOfPartition = E := by
  unfold _NTFS_cache_constructor at hc
  by_cases h : pc = 0 ∨ spp = 0
  · simp [h] at hc
  · cases a1 <;> cases a2 <;> simp [h] at hc
    subst hc
    rfl

/-- **C8** (amended: the operations must address only sectors inside the
partition).  Starting from a freshly constructed cache, after any sequence of
in-partition access-layer operations, every non-FREE slot's base sector is a
multiple of the page size, and the covered sector ranges of any two distinct
non-FREE slots are disjoint. -/
theorem cache_slots_aligned_disjoint (pc spp E B : Nat) (a1 a2 : Bool) (ctr : Nat)
    (disc : DISC_INTERFACE) (c0 c : NTFS_CACHE) (ops : List CacheOp)
    (hE : E < 2^32)
    (hc0 : _NTFS_cache_constructor pc spp E B a1 a2 ctr = some c0)
    (hops : ∀ op ∈ ops, op.inPartition E = true)
    (hrun : runOps disc c0 ops = c) :
    (∀ i, i < c.cacheEntries.length →
      (c.cacheEntries.getD i default).sector ≠ CACHE_FREE →
      c.sectorsPerPage ∣ (c.cacheEntries.getD i default).sector) ∧
    (∀ i j, i < c.cacheEntries.length → j < c.cacheEntries.length → i ≠ j →
      (c.cacheEntries.getD i default).sector ≠ CACHE_FREE →
      (c.cacheEntries.getD j default).sector ≠ CACHE_FREE →
      (c.cacheEntries.getD i default).sector + (c.cacheEntries.getD i default).count ≤
        (c.cacheEntries.getD j default).sector ∨
      (c.cacheEntries.getD j default).sector + (c.cacheEntries.getD j default).count ≤
        (c.cacheEntries.getD i default).sector) := by
  subst hrun
  have hinv0 := CacheInv_constructor pc spp E B a1 a2 ctr c0 hE hc0
  have hE0 := constructor_endOfPartition pc spp E B a1 a2 ctr c0 hc0
  have hinv : CacheInv (runOps disc c0 ops) := by
    refine CacheInv_runOps disc ops c0 hinv0 ?_
    rw [hE0]
    exact hops
  refine ⟨?_, CacheInv_disjoint _ hinv⟩
  intro i hi hf
  exact (hinv.2.2.1 i hi hf).1

/-- The concrete cache produced by `_NTFS_cache_constructor 4 32 40 1`. -/
def c8c0 : NTFS_CACHE :=
  { endOfPartition := 40, sectorsPerPage := 32, bytesPerSector := 1,
    cacheEntries := List.replicate 4
      { sector := CACHE_FREE, count := 0, last_access := 0, dirty := 0,
        buffer := List.replicate 32 0 },
    accessCounter := 0 }

theorem cache_slots_aligned_disjoint_witness :
    (40 < 2^32 ∧
     _NTFS_cache_constructor 4 32 40 1 true true 0 = some c8c0 ∧
     (∀ op ∈ [CacheOp.readS 0 1 0], CacheOp.inPartition 40 op = true)) ∧
    ((∀ i, i < (runOps discAllOk c8c0 [CacheOp.readS 0 1 0]).cacheEntries.length →
      ((runOps discAllOk c8c0 [CacheOp.readS 0 1 0]).cacheEntries.getD i default).sector ≠
        CACHE_FREE →
      (runOps discAllOk c8c0 [CacheOp.readS 0 1 0]).sectorsPerPage ∣
        ((runOps discAllOk c8c0 [CacheOp.readS 0 1 0]).cacheEntries.getD i default).sector) ∧
    (∀ i j, i < (runOps discAllOk c8c0 [CacheOp.readS 0 1 0]).cacheEntries.length →
      j < (runOps discAllOk c8c0 [CacheOp.readS 0 1 0]).cacheEntries.length → i ≠ j →
      ((runOps discAllOk c8c0 [CacheOp.readS 0 1 0]).cacheEntries.getD i default).sector ≠
        CACHE_FREE →
      ((runOps discAllOk c8c0 [CacheOp.readS 0 1 0]).cacheEntries.getD j default).sector ≠
        CACHE_FREE →
      ((runOps discAllOk c8c0 [CacheOp.readS 0 1 0]).cacheEntries.getD i default).sector +
        ((runOps discAllOk c8c0 [CacheOp.readS 0 1 0]).cacheEntries.getD i default).count ≤
        ((runOps discAllOk c8c0 [CacheOp.readS 0 1 0]).cacheEntries.getD j default).sector ∨
      ((runOps discAllOk c8c0 [CacheOp.readS 0 1 0]).cacheEntries.getD j default).sector +
        ((runOps discAllOk c8c0 [CacheOp.readS 0 1 0]).cacheEntries.getD j default).count ≤
        ((runOps discAllOk c8c0 [CacheOp.readS 0 1 0]).cacheEntries.getD i default).sector)) :=
  ⟨⟨by decide, by decide, by decide⟩,
   cache_slots_aligned_disjoint 4 32 40 1 true true 0 discAllOk c8c0
     (runOps discAllOk c8c0 [CacheOp.readS 0 1 0]) [CacheOp.readS 0 1 0]
     (by decide) (by decide) (by decide) rfl⟩

/-- The cache after an in-partition read populating one page and an
out-of-partition read (sector 45, partition end 40). -/
def c8bad : NTFS_CACHE :=
  runOps discAllOk c8c0 [CacheOp.readS 32 1 0, CacheOp.readS 45 1 0]

/-- Counterexample to the unamended claim: with partition end 40, reading
sector 32 populates slot 0 with base 32 and count 8; a subsequent read of
sector 45 (past the partition end) misses that slot and populates slot 1
with the same base 32 and count 8, so two distinct non-FREE slots have
overlapping covered ranges. -/
theorem cache_slots_overlap_out_of_partition :
    _NTFS_cache_constructor 4 32 40 1 true true 0 = some c8c0 ∧
    (c8bad.cacheEntries.getD 0 default).sector ≠ CACHE_FREE ∧
    (c8bad.cacheEntries.getD 1 default).sector ≠ CACHE_FREE ∧
    ¬((c8bad.cacheEntries.getD 0 default).sector + (c8bad.cacheEntries.getD 0 default).count ≤
        (c8bad.cacheEntries.getD 1 default).sector ∨
      (c8bad.cacheEntries.getD 1 default).sector + (c8bad.cacheEntries.getD 1 default).count ≤
        (c8bad.cacheEntries.getD 0 default).sector) := by
  decide
